import Mathlib

/-!
# UsdTranslateUndoableCommand

A shallow embedding of `lib/mayaUsd/ufe/UsdTranslateUndoableCommand.cpp`:
the constructor (bind to an existing translate op, or create one), `translate`,
`undo`, `redo`, and the lane-wise matrix helpers `rotate`, `transform4d` and
`multiply4x4`.

Conventions of the embedding.

* A C++ `double` (and `float`, `half`) is an exact rational.  The three vector
  types `GfVec3h`, `GfVec3f`, `GfVec3d` are told apart by the precision tag of
  the value; the rounding of a narrowing conversion is not represented.
* The scene is a layer stack: a list of layers, strongest first, each holding
  prim specs with their attribute specs, together with the index of the layer
  that is the current edit target.
* Tokens are kept in parsed form (`TfToken`), so that `xformOp:translate:pivot`
  is `TfToken.xformOp TypeTranslate "pivot" false`.
* An exception thrown inside a `try` block is an `Option` result.
-/

namespace MayaUsd

/-! ## Vector and matrix values -/

/-- Modelled from the spec: `MayaUsdUtils::d256` of `mayaUsdUtils/SIMD.h` (absent); four
double lanes. -/
structure d256 where
  x : ℚ
  y : ℚ
  z : ℚ
  w : ℚ
  deriving DecidableEq, Repr

/-- The USD vector `GfVec3d`. -/
structure GfVec3d where
  x : ℚ
  y : ℚ
  z : ℚ
  deriving DecidableEq, Repr

/-- The USD matrix `GfMatrix4d`, row major: `M[i]` is row `i`, a run of four doubles. -/
structure GfMatrix4d where
  r0 : d256
  r1 : d256
  r2 : d256
  r3 : d256
  deriving DecidableEq, Repr

/-- The identity matrix. -/
def GfMatrix4d.identity : GfMatrix4d :=
  ⟨⟨1, 0, 0, 0⟩, ⟨0, 1, 0, 0⟩, ⟨0, 0, 1, 0⟩, ⟨0, 0, 0, 1⟩⟩

/-- The matrix `GfMatrix4d().SetTranslate(t)`. -/
def GfMatrix4d.translation (t : GfVec3d) : GfMatrix4d :=
  ⟨⟨1, 0, 0, 0⟩, ⟨0, 1, 0, 0⟩, ⟨0, 0, 1, 0⟩, ⟨t.x, t.y, t.z, 1⟩⟩

/-- Row `i` of a matrix (`M[i]`, or `((d256*)&M)[i]`). -/
def GfMatrix4d.row (m : GfMatrix4d) : Fin 4 → d256
  | 0 => m.r0
  | 1 => m.r1
  | 2 => m.r2
  | 3 => m.r3

/-- The difference `a - b` of two `GfVec3d`. -/
def GfVec3d.sub (a b : GfVec3d) : GfVec3d := ⟨a.x - b.x, a.y - b.y, a.z - b.z⟩

/-- The sum `a + b` of two `GfVec3d`. -/
def GfVec3d.add (a b : GfVec3d) : GfVec3d := ⟨a.x + b.x, a.y + b.y, a.z + b.z⟩

/-- `GfVec3d::GetLengthSq`. -/
def GfVec3d.GetLengthSq (a : GfVec3d) : ℚ := a.x * a.x + a.y * a.y + a.z * a.z

/-- The USD function `GfIsClose(GfVec3d, GfVec3d, double)`: the two vectors are close when
the squared length of their difference is at most the squared tolerance. -/
def GfIsClose (v1 v2 : GfVec3d) (tolerance : ℚ) : Bool :=
  decide ((v1.sub v2).GetLengthSq ≤ tolerance * tolerance)

/-- The literal `1e-5f` of `undo`: the single-precision float nearest to `1e-5`,
which is `10995116 / 2^40`, widened to double without change. -/
def undoTolerance : ℚ := 10995116 / 1099511627776

/-! ## Lane operations (`mayaUsdUtils/SIMD.h`) -/

/-- Modelled from the spec: `set4d` of `mayaUsdUtils/SIMD.h` (absent); builds a vector from
four lanes. -/
def set4d (a b c d : ℚ) : d256 := ⟨a, b, c, d⟩

/-- Modelled from the spec: `zero4d` of `mayaUsdUtils/SIMD.h` (absent); all lanes zero. -/
def zero4d : d256 := ⟨0, 0, 0, 0⟩

/-- Modelled from the spec: `load4d` of `mayaUsdUtils/SIMD.h` (absent); loads four
consecutive doubles, here a matrix row. -/
def load4d (row : d256) : d256 := row

/-- Modelled from the spec: `loadu4d` of `mayaUsdUtils/SIMD.h` (absent); the unaligned
load of four consecutive doubles. -/
def loadu4d (row : d256) : d256 := row

/-- Modelled from the spec: `sub4d` of `mayaUsdUtils/SIMD.h` (absent); lane-wise
subtraction. -/
def sub4d (a b : d256) : d256 := ⟨a.x - b.x, a.y - b.y, a.z - b.z, a.w - b.w⟩

/-- Modelled from the spec: `mul4d` of `mayaUsdUtils/SIMD.h` (absent); lane-wise product. -/
def mul4d (a b : d256) : d256 := ⟨a.x * b.x, a.y * b.y, a.z * b.z, a.w * b.w⟩

/-- Modelled from the spec: `fmadd4d` of `mayaUsdUtils/SIMD.h` (absent); the lane-wise
fused multiply-add `a * b + c`. -/
def fmadd4d (a b c : d256) : d256 :=
  ⟨a.x * b.x + c.x, a.y * b.y + c.y, a.z * b.z + c.z, a.w * b.w + c.w⟩

/-- Modelled from the spec: `get<i>` of `mayaUsdUtils/SIMD.h` (absent); reads lane `i`. -/
def get (i : Fin 4) (v : d256) : ℚ :=
  match i with
  | 0 => v.x
  | 1 => v.y
  | 2 => v.z
  | 3 => v.w

/-- Modelled from the spec: `permute4d<a, b, c, d>` of `mayaUsdUtils/SIMD.h` (absent);
lane `k` of the result is the lane of the argument named by the `k`-th index. -/
def permute4d (a b c d : Fin 4) (v : d256) : d256 := ⟨get a v, get b v, get c v, get d v⟩

/-- Modelled from the spec: `select4d<b0, b1, b2, b3>` of `mayaUsdUtils/SIMD.h` (absent);
the component select, keeping a lane of the first argument where the flag is set and taking
the lane of the second one otherwise (`select4d<1, 1, 1, 0>(diff, zero)` zeroes the
homogeneous component). -/
def select4d (b0 b1 b2 b3 : Bool) (a b : d256) : d256 :=
  ⟨if b0 then a.x else b.x, if b1 then a.y else b.y,
   if b2 then a.z else b.z, if b3 then a.w else b.w⟩

/-- Function `rotate`: rotate an offset vector by the coordinate frame. -/
def rotate (offset : d256) (frame : Fin 4 → d256) : d256 :=
  let xxx := permute4d 0 0 0 0 offset
  let yyy := permute4d 1 1 1 1 offset
  let zzz := permute4d 2 2 2 2 offset
  fmadd4d zzz (frame 2) (fmadd4d yyy (frame 1) (mul4d xxx (frame 0)))

/-- Function `transform4d`: transform an offset vector by the coordinate frame, the
fourth lane weighting the fourth row. -/
def transform4d (offset : d256) (frame : Fin 4 → d256) : d256 :=
  let xxx := permute4d 0 0 0 0 offset
  let yyy := permute4d 1 1 1 1 offset
  let zzz := permute4d 2 2 2 2 offset
  let www := permute4d 3 3 3 3 offset
  fmadd4d www (frame 3) (fmadd4d zzz (frame 2) (fmadd4d yyy (frame 1) (mul4d xxx (frame 0))))

/-- The in-place `multiply4x4(frame, childTransform)`, `frame *= childTransform`; the result
is the content of `frame` after the call. -/
def multiply4x4 (frame childTransform : GfMatrix4d) : GfMatrix4d :=
  let mx := transform4d (childTransform.row 0) frame.row
  let my := transform4d (childTransform.row 1) frame.row
  let mz := transform4d (childTransform.row 2) frame.row
  -- `frame[3]` is assigned first, the other three rows afterwards
  let frame1 : GfMatrix4d := { frame with r3 := transform4d (childTransform.row 3) frame.row }
  let frame2 : GfMatrix4d := { frame1 with r0 := mx }
  let frame3 : GfMatrix4d := { frame2 with r1 := my }
  { frame3 with r2 := mz }

/-- The three-argument `multiply4x4(output, childTransform, parentTransform)`; the result is
the content of `output` after the call. -/
def multiply4x4Into (output childTransform parentTransform : GfMatrix4d) : GfMatrix4d :=
  let mx := transform4d (childTransform.row 0) parentTransform.row
  let my := transform4d (childTransform.row 1) parentTransform.row
  let mz := transform4d (childTransform.row 2) parentTransform.row
  let output1 : GfMatrix4d :=
    { output with r3 := transform4d (childTransform.row 3) parentTransform.row }
  let output2 : GfMatrix4d := { output1 with r0 := mx }
  let output3 : GfMatrix4d := { output2 with r1 := my }
  { output3 with r2 := mz }

/-- The entries of a `GfMatrix4d` as a matrix over the rationals: entry `(i, j)` is lane `j`
of row `i`. -/
def GfMatrix4d.toMatrix (m : GfMatrix4d) : Matrix (Fin 4) (Fin 4) ℚ :=
  fun i j => get j (m.row i)

/-! ## Scene description: tokens, values, specs, layers -/

/-- A scene path (`SdfPath`); only prim paths occur. -/
abbrev SdfPath := String

/-- The op types of `UsdGeomXformOp::Type`, `TypeInvalid` apart. -/
inductive XformOpType
  | TypeTranslate | TypeScale
  | TypeRotateX | TypeRotateY | TypeRotateZ
  | TypeRotateXYZ | TypeRotateXZY | TypeRotateYXZ | TypeRotateYZX | TypeRotateZXY | TypeRotateZYX
  | TypeOrient | TypeTransform
  deriving DecidableEq, Repr

/-- The precisions of `UsdGeomXformOp::Precision`. -/
inductive Precision
  | PrecisionDouble | PrecisionFloat | PrecisionHalf
  deriving DecidableEq, Repr

/-- A token in parsed form: the attribute name `xformOpOrder`, the marker
`!resetXformStack!`, an op name `[!invert!]xformOp:<type>[:<suffix>]`, or any other text. -/
inductive TfToken
  | xformOpOrder
  | resetXformStack
  | xformOp (opType : XformOpType) (suffix : String) (inverse : Bool)
  | other (text : String)
  deriving DecidableEq, Repr

/-- A time code: `UsdTimeCode::Default()` or a numeric time. -/
inductive UsdTimeCode
  | Default
  | time (t : ℚ)
  deriving DecidableEq, Repr

/-- The value type names an attribute spec can declare. -/
inductive SdfValueTypeName
  | scalar (p : Precision)
  | vec3 (p : Precision)
  | quat (p : Precision)
  | matrix4d
  | tokenArray
  | other
  deriving DecidableEq, Repr

/-- A held value (`VtValue`): `vec3 PrecisionHalf v` is a `GfVec3h`, `vec3 PrecisionFloat v` a
`GfVec3f`, `vec3 PrecisionDouble v` a `GfVec3d`. -/
inductive VtValue
  | scalar (p : Precision) (v : ℚ)
  | vec3 (p : Precision) (v : GfVec3d)
  | quat (p : Precision) (r i j k : ℚ)
  | matrix4d (m : GfMatrix4d)
  | tokens (ts : List TfToken)
  | other
  deriving DecidableEq, Repr

/-- The value type name a held value belongs to. -/
def VtValue.typeName : VtValue → SdfValueTypeName
  | .scalar p _ => .scalar p
  | .vec3 p _ => .vec3 p
  | .quat p _ _ _ _ => .quat p
  | .matrix4d _ => .matrix4d
  | .tokens _ => .tokenArray
  | .other => .other

/-- An attribute spec of one layer: its name, declared type, default value and time samples
(ordered by time). -/
structure SdfAttributeSpec where
  name : TfToken
  typeName : SdfValueTypeName
  defaultValue : Option VtValue
  timeSamples : List (ℚ × VtValue)
  deriving DecidableEq, Repr

/-- A prim spec of one layer: its attribute specs in the order of `GetAttributes()`. -/
structure SdfPrimSpec where
  attributes : List SdfAttributeSpec
  deriving DecidableEq, Repr

/-- A layer: the prim specs it holds, keyed by path. -/
structure SdfLayer where
  primSpecs : List (SdfPath × SdfPrimSpec)
  deriving DecidableEq, Repr

/-- An edit target (`UsdEditTarget`): the position of its layer in the layer stack. -/
abbrev UsdEditTarget := Nat

/-- A stage: the layer stack, strongest layer first, and the current edit target. -/
structure UsdStage where
  layers : List SdfLayer
  editTarget : UsdEditTarget
  deriving DecidableEq, Repr

/-- The attribute spec of a prim spec with the given name, if any. -/
def SdfPrimSpec.GetAttributeSpec (ps : SdfPrimSpec) (name : TfToken) : Option SdfAttributeSpec :=
  ps.attributes.find? (fun a => decide (a.name = name))

/-- The loop of `undo` over `specHandle->GetAttributes()`: the first attribute spec whose name
is `name` is removed with `RemoveProperty`, and the loop stops. -/
def removeAttrSpecNamed : List SdfAttributeSpec → TfToken → List SdfAttributeSpec
  | [], _ => []
  | a :: rest, name => if name = a.name then rest else a :: removeAttrSpecNamed rest name

/-- The prim spec at a path (`SdfLayer::GetPrimAtPath`), if any. -/
def getPrimSpec : List (SdfPath × SdfPrimSpec) → SdfPath → Option SdfPrimSpec
  | [], _ => none
  | (q, ps) :: rest, path => if q = path then some ps else getPrimSpec rest path

/-- Replace the prim spec at a path, or add it when the layer has none there. -/
def putPrimSpec : List (SdfPath × SdfPrimSpec) → SdfPath → SdfPrimSpec →
    List (SdfPath × SdfPrimSpec)
  | [], path, ps => [(path, ps)]
  | (q, qs) :: rest, path, ps =>
    if q = path then (path, ps) :: rest else (q, qs) :: putPrimSpec rest path ps

/-- The prim spec at a path (`SdfLayer::GetPrimAtPath`). -/
def SdfLayer.GetPrimAtPath (l : SdfLayer) (path : SdfPath) : Option SdfPrimSpec :=
  getPrimSpec l.primSpecs path

/-- The attribute spec of a layer for an attribute of a prim, if any. -/
def SdfLayer.GetAttributeSpec (l : SdfLayer) (path : SdfPath) (name : TfToken) :
    Option SdfAttributeSpec :=
  (l.GetPrimAtPath path).bind (fun ps => ps.GetAttributeSpec name)

/-- Edit the prim spec of a layer at a path, creating an empty `over` when there is none. -/
def SdfLayer.editPrimSpec (l : SdfLayer) (path : SdfPath) (f : SdfPrimSpec → SdfPrimSpec) :
    SdfLayer :=
  ⟨putPrimSpec l.primSpecs path (f ((l.GetPrimAtPath path).getD ⟨[]⟩))⟩

/-- Apply `f` to the element at position `n` of a list. -/
def modifyNth {α : Type} (f : α → α) : List α → Nat → List α
  | [], _ => []
  | a :: rest, 0 => f a :: rest
  | a :: rest, n + 1 => a :: modifyNth f rest n

/-- Author on the layer of an edit target: edit the prim spec at `path` there. -/
def UsdStage.authorAt (s : UsdStage) (target : UsdEditTarget) (path : SdfPath)
    (f : SdfPrimSpec → SdfPrimSpec) : UsdStage :=
  { s with layers := modifyNth (fun l => l.editPrimSpec path f) s.layers target }

/-- The set-the-edit-target call `UsdStage::SetEditTarget`. -/
def UsdStage.SetEditTarget (s : UsdStage) (target : UsdEditTarget) : UsdStage :=
  { s with editTarget := target }

/-- The property stack of an attribute: its specs over the layer stack, strongest first. -/
def UsdStage.propertyStack (s : UsdStage) (path : SdfPath) (name : TfToken) :
    List SdfAttributeSpec :=
  s.layers.filterMap (fun l => l.GetAttributeSpec path name)

/-- The specs of an attribute on the layers stronger than the edit target. -/
def UsdStage.strongerSpecs (s : UsdStage) (path : SdfPath) (name : TfToken) :
    List SdfAttributeSpec :=
  (s.layers.take s.editTarget).filterMap (fun l => l.GetAttributeSpec path name)

/-! ## Transform ops and the environment of the command -/

/-- A handle on a transform op (`UsdGeomXformOp`): the default-constructed, invalid handle, or
the attribute `xformOp:<type>[:<suffix>]` of a prim together with the inverse flag. -/
inductive UsdGeomXformOp
  | invalid
  | op (prim : SdfPath) (opType : XformOpType) (suffix : String) (isInverseOp : Bool)
  deriving DecidableEq, Repr

/-- Modelled from the spec: `MayaUsdUtils::TransformManipulator::Space` of
`mayaUsdUtils/TransformManipulator.h` (absent); the four coordinate spaces. -/
inductive Space
  | kPreTransform | kPostTransform | kWorld | kTransform
  deriving DecidableEq, Repr

/-- What the command takes from outside the file: which ops a `TransformManipulator` asked
for `kTranslate` with an empty name binds to, the local matrix of an op other than a plain
translate or matrix op (`UsdGeomXformOp::GetOpTransform`), the value interpolated between
time samples, and the content of a `GfMatrix4d` that was declared without an initial value. -/
structure Env where
  accepts : UsdGeomXformOp → Bool
  opTransform : XformOpType → Bool → Option VtValue → GfMatrix4d
  interpolate : List (ℚ × VtValue) → ℚ → Option VtValue
  uninitialised : GfMatrix4d

/-! ## The USD attribute interface -/

/-- Validity of `prim.GetAttribute(name)` for an attribute without a schema fallback: some
layer holds a spec of it. -/
def UsdAttribute.IsValid (s : UsdStage) (path : SdfPath) (name : TfToken) : Bool :=
  !(s.propertyStack path name).isEmpty

/-- `UsdAttribute::GetTypeName`: the type name declared by the strongest spec. -/
def UsdAttribute.GetTypeName (s : UsdStage) (path : SdfPath) (name : TfToken) :
    Option SdfValueTypeName :=
  (s.propertyStack path name).head?.map (fun spec => spec.typeName)

/-- `UsdAttribute::HasAuthoredValue`: some layer holds a default or time samples. -/
def UsdAttribute.HasAuthoredValue (s : UsdStage) (path : SdfPath) (name : TfToken) : Bool :=
  (s.propertyStack path name).any
    (fun spec => spec.defaultValue.isSome || !spec.timeSamples.isEmpty)

/-- Whether a spec holds an opinion about the value at a time code: a default for the default
time, time samples or a default for a numeric time. -/
def specHasValueAt (spec : SdfAttributeSpec) : UsdTimeCode → Bool
  | .Default => spec.defaultValue.isSome
  | .time _ => !spec.timeSamples.isEmpty || spec.defaultValue.isSome

/-- The value of a list of time samples at a time: the sample authored there, or else the
interpolated value. -/
def sampleAt (env : Env) (samples : List (ℚ × VtValue)) (t : ℚ) : Option VtValue :=
  match samples.find? (fun p => decide (p.1 = t)) with
  | some p => some p.2
  | none => env.interpolate samples t

/-- The value a spec gives at a time code; time samples win over the default at a numeric
time. -/
def specValueAt (env : Env) (spec : SdfAttributeSpec) : UsdTimeCode → Option VtValue
  | .Default => spec.defaultValue
  | .time t => if spec.timeSamples.isEmpty then spec.defaultValue
               else sampleAt env spec.timeSamples t

/-- `UsdAttribute::Get`: the value of the strongest spec that holds an opinion. -/
def UsdAttribute.Get (env : Env) (s : UsdStage) (path : SdfPath) (name : TfToken)
    (time : UsdTimeCode) : Option VtValue :=
  ((s.propertyStack path name).find? (fun spec => specHasValueAt spec time)).bind
    (fun spec => specValueAt env spec time)

/-- `UsdAttribute::GetNumTimeSamples`: the number of time samples of the spec the value
resolves to. -/
def UsdAttribute.GetNumTimeSamples (s : UsdStage) (path : SdfPath) (name : TfToken) : Nat :=
  match (s.propertyStack path name).find? (fun spec => specHasValueAt spec (.time 0)) with
  | some spec => spec.timeSamples.length
  | none => 0

/-- `SdfLayer::SetTimeSample` on the ordered sample map of one attribute. -/
def setTimeSample : List (ℚ × VtValue) → ℚ → VtValue → List (ℚ × VtValue)
  | [], t, v => [(t, v)]
  | (u, w) :: rest, t, v =>
    if u = t then (t, v) :: rest
    else if t < u then (t, v) :: (u, w) :: rest
    else (u, w) :: setTimeSample rest t v

/-- Author a value on a spec: the default at the default time, a time sample otherwise. -/
def SdfAttributeSpec.setValue (spec : SdfAttributeSpec) (v : VtValue) :
    UsdTimeCode → SdfAttributeSpec
  | .Default => { spec with defaultValue := some v }
  | .time t => { spec with timeSamples := setTimeSample spec.timeSamples t v }

/-- Apply `f` to the first attribute spec of the given name. -/
def modifyAttrSpec (f : SdfAttributeSpec → SdfAttributeSpec) :
    List SdfAttributeSpec → TfToken → List SdfAttributeSpec
  | [], _ => []
  | a :: rest, name => if a.name = name then f a :: rest else a :: modifyAttrSpec f rest name

/-- The prim spec with a spec for the attribute: the one it has, or else a new one without a
value, declared with the given type name and added after the others. -/
def SdfPrimSpec.ensureAttributeSpec (ps : SdfPrimSpec) (name : TfToken)
    (typeName : SdfValueTypeName) : SdfPrimSpec :=
  match ps.GetAttributeSpec name with
  | some _ => ps
  | none => ⟨ps.attributes ++ [⟨name, typeName, none, []⟩]⟩

/-- The prim spec after a value is authored on its spec of the attribute. -/
def SdfPrimSpec.setAttributeValue (ps : SdfPrimSpec) (name : TfToken) (v : VtValue)
    (time : UsdTimeCode) : SdfPrimSpec :=
  ⟨modifyAttrSpec (fun spec => spec.setValue v time) ps.attributes name⟩

/-- `UsdStage::_CreateAttributeSpecForEditing`: the spec of the attribute on the current edit
target, created with the given type name (and the `over` for its prim) when absent. -/
def UsdStage.CreateAttributeSpecForEditing (s : UsdStage) (path : SdfPath) (name : TfToken)
    (typeName : SdfValueTypeName) : UsdStage :=
  s.authorAt s.editTarget path (fun ps => ps.ensureAttributeSpec name typeName)

/-- `UsdPrim::CreateAttribute`: a spec on the edit target, declared with the type of the
attribute when it is defined already and with the given type otherwise. -/
def UsdPrim.CreateAttribute (s : UsdStage) (path : SdfPath) (name : TfToken)
    (typeName : SdfValueTypeName) : UsdStage :=
  s.CreateAttributeSpecForEditing path name ((UsdAttribute.GetTypeName s path name).getD typeName)

/-- `UsdAttribute::Set`: nothing is authored for an undefined attribute or for a value whose
type is not the declared one; otherwise the value goes to the spec on the edit target. -/
def UsdAttribute.Set (s : UsdStage) (path : SdfPath) (name : TfToken) (v : VtValue)
    (time : UsdTimeCode) : UsdStage :=
  match UsdAttribute.GetTypeName s path name with
  | none => s
  | some typeName =>
    if v.typeName = typeName then
      let s1 := s.CreateAttributeSpecForEditing path name typeName
      s1.authorAt s1.editTarget path (fun ps => ps.setAttributeValue name v time)
    else s

/-- The layer of the edit target after a value is authored on it: the spec is created for
editing, then the value is set. -/
def SdfLayer.withValue (l : SdfLayer) (path : SdfPath) (name : TfToken)
    (typeName : SdfValueTypeName) (v : VtValue) (time : UsdTimeCode) : SdfLayer :=
  (l.editPrimSpec path (fun ps => ps.ensureAttributeSpec name typeName)).editPrimSpec path
    (fun ps => ps.setAttributeValue name v time)

/-! ## The USD transform-op interface -/

/-- `UsdGeomXformOp::GetName`: the name of the attribute, without the inverse marker. -/
def UsdGeomXformOp.GetName : UsdGeomXformOp → TfToken
  | .invalid => .other ""
  | .op _ opType suffix _ => .xformOp opType suffix false

/-- `UsdGeomXformOp::GetOpName`: the name of the op as listed in `xformOpOrder`. -/
def UsdGeomXformOp.GetOpName : UsdGeomXformOp → TfToken
  | .invalid => .other ""
  | .op _ opType suffix isInverseOp => .xformOp opType suffix isInverseOp

/-- `UsdGeomXformOp::GetOpType`; `none` is `TypeInvalid`. -/
def UsdGeomXformOp.GetOpType : UsdGeomXformOp → Option XformOpType
  | .invalid => none
  | .op _ opType _ _ => some opType

/-- The prim of the attribute of an op (`op.GetAttr().GetPrim()`). -/
def UsdGeomXformOp.GetPrim : UsdGeomXformOp → Option SdfPath
  | .invalid => none
  | .op prim _ _ _ => some prim

/-- `UsdGeomXformOp::GetPrecisionFromValueTypeName`; an unknown type name is reported and
read as double precision. -/
def GetPrecisionFromValueTypeName : Option SdfValueTypeName → Precision
  | some (.scalar p) => p
  | some (.vec3 p) => p
  | some (.quat p) => p
  | _ => .PrecisionDouble

/-- `UsdGeomXformOp::GetPrecision`. -/
def UsdGeomXformOp.GetPrecision (s : UsdStage) : UsdGeomXformOp → Precision
  | .invalid => .PrecisionDouble
  | .op prim opType suffix _ =>
    GetPrecisionFromValueTypeName (UsdAttribute.GetTypeName s prim (.xformOp opType suffix false))

/-- `UsdGeomXformOp::GetNumTimeSamples`. -/
def UsdGeomXformOp.GetNumTimeSamples (s : UsdStage) : UsdGeomXformOp → Nat
  | .invalid => 0
  | .op prim opType suffix _ =>
    UsdAttribute.GetNumTimeSamples s prim (.xformOp opType suffix false)

/-- `UsdGeomXformOp::Get`: the value of the attribute of the op. -/
def UsdGeomXformOp.Get (env : Env) (s : UsdStage) (op : UsdGeomXformOp) (time : UsdTimeCode) :
    Option VtValue :=
  match op with
  | .invalid => none
  | .op prim opType suffix _ => UsdAttribute.Get env s prim (.xformOp opType suffix false) time

/-- `UsdGeomXformOp::Set`: refused for an inverse op, otherwise `UsdAttribute::Set`. -/
def UsdGeomXformOp.Set (s : UsdStage) (op : UsdGeomXformOp) (v : VtValue) (time : UsdTimeCode) :
    UsdStage :=
  match op with
  | .invalid => s
  | .op prim opType suffix isInverseOp =>
    if isInverseOp then s else UsdAttribute.Set s prim (.xformOp opType suffix false) v time

/-- `UsdGeomXformOp::GetOpTransform`: the local matrix of an op at a time; a plain translate
gives a translation matrix and a plain matrix op its matrix, the other cases come from the
environment. -/
def UsdGeomXformOp.GetOpTransform (env : Env) (s : UsdStage) (op : UsdGeomXformOp)
    (time : UsdTimeCode) : GfMatrix4d :=
  match op with
  | .invalid => GfMatrix4d.identity
  | .op _ opType _ isInverseOp =>
    match opType, isInverseOp, op.Get env s time with
    | .TypeTranslate, false, some (.vec3 _ t) => GfMatrix4d.translation t
    | .TypeTransform, false, some (.matrix4d m) => m
    | _, _, v => env.opTransform opType isInverseOp v

/-- `UsdGeomXformable::_GetXformOpOrderValue`: the token array held by `xformOpOrder`. -/
def UsdGeomXformable.GetXformOpOrderValue (env : Env) (s : UsdStage) (prim : SdfPath) :
    Option (List TfToken) :=
  match UsdAttribute.Get env s prim .xformOpOrder .Default with
  | some (.tokens ts) => some ts
  | _ => none

/-- The loop of `UsdGeomXformable::GetOrderedXformOps` over the tokens of `xformOpOrder`:
the reset marker clears the ops gathered so far and raises the flag, an op name whose
attribute exists adds its op, and any other token is skipped. -/
def orderedXformOpsFrom (s : UsdStage) (prim : SdfPath) :
    List TfToken → List UsdGeomXformOp × Bool → List UsdGeomXformOp × Bool
  | [], acc => acc
  | .resetXformStack :: rest, _ => orderedXformOpsFrom s prim rest ([], true)
  | .xformOp opType suffix inverse :: rest, (ops, reset) =>
    if UsdAttribute.IsValid s prim (.xformOp opType suffix false) then
      orderedXformOpsFrom s prim rest (ops ++ [.op prim opType suffix inverse], reset)
    else orderedXformOpsFrom s prim rest (ops, reset)
  | _ :: rest, acc => orderedXformOpsFrom s prim rest acc

/-- `UsdGeomXformable::GetOrderedXformOps(&resetsXformStack)`: the ops and the reset flag. -/
def UsdGeomXformable.GetOrderedXformOps (env : Env) (s : UsdStage) (prim : SdfPath) :
    List UsdGeomXformOp × Bool :=
  match UsdGeomXformable.GetXformOpOrderValue env s prim with
  | some ts => orderedXformOpsFrom s prim ts ([], false)
  | none => ([], false)

/-- `UsdGeomXformOp::GetValueTypeName`: the type an op attribute is declared with. -/
def GetValueTypeName : XformOpType → Precision → SdfValueTypeName
  | .TypeTransform, _ => .matrix4d
  | .TypeOrient, p => .quat p
  | .TypeRotateX, p => .scalar p
  | .TypeRotateY, p => .scalar p
  | .TypeRotateZ, p => .scalar p
  | _, p => .vec3 p

/-- `UsdGeomXformable::CreateXformOpOrderAttr().Set(tokens)`. -/
def UsdGeomXformable.authorXformOpOrder (s : UsdStage) (prim : SdfPath) (ts : List TfToken) :
    UsdStage :=
  UsdAttribute.Set (UsdPrim.CreateAttribute s prim .xformOpOrder .tokenArray) prim
    .xformOpOrder (.tokens ts) .Default

/-- `UsdGeomXformable::AddXformOp`: refused (invalid op, nothing authored) when the op name
is listed in `xformOpOrder` already; otherwise the existing attribute of that name is taken,
or one is created on the edit target, and the op name is appended to `xformOpOrder`. -/
def UsdGeomXformable.AddXformOp (env : Env) (s : UsdStage) (prim : SdfPath)
    (opType : XformOpType) (precision : Precision) (suffix : String) (isInverseOp : Bool) :
    UsdGeomXformOp × UsdStage :=
  let xformOpOrder := (UsdGeomXformable.GetXformOpOrderValue env s prim).getD []
  let opName := TfToken.xformOp opType suffix isInverseOp
  if opName ∈ xformOpOrder then (.invalid, s)
  else
    let attrName := TfToken.xformOp opType suffix false
    let s1 := if UsdAttribute.IsValid s prim attrName then s
              else UsdPrim.CreateAttribute s prim attrName (GetValueTypeName opType precision)
    if UsdAttribute.IsValid s1 prim attrName then
      (.op prim opType suffix isInverseOp,
        UsdGeomXformable.authorXformOpOrder s1 prim (xformOpOrder ++ [opName]))
    else (.invalid, s1)

/-- `UsdGeomXformable::AddTranslateOp(precision)`, with the default suffix and flag. -/
def UsdGeomXformable.AddTranslateOp (env : Env) (s : UsdStage) (prim : SdfPath)
    (precision : Precision) : UsdGeomXformOp × UsdStage :=
  UsdGeomXformable.AddXformOp env s prim .TypeTranslate precision "" false

/-- `UsdGeomXformable::SetXformOpOrder`: refused when an op belongs to another prim (or is
invalid); otherwise `xformOpOrder` is authored as the reset marker, if asked for, followed by
the op names. -/
def UsdGeomXformable.SetXformOpOrder (s : UsdStage) (prim : SdfPath)
    (orderedXformOps : List UsdGeomXformOp) (resetXformStack : Bool) : UsdStage :=
  if orderedXformOps.all (fun op => decide (op.GetPrim = some prim)) then
    UsdGeomXformable.authorXformOpOrder s prim
      ((if resetXformStack then [TfToken.resetXformStack] else []) ++
        orderedXformOps.map UsdGeomXformOp.GetOpName)
  else s

/-! ## The transform manipulator (`mayaUsdUtils/TransformManipulator.h`) -/

/-- Modelled from the spec: `MayaUsdUtils::TransformManipulator` of
`mayaUsdUtils/TransformManipulator.h` (absent); the state of a manipulator bound to an op:
the prim, its ordered ops (`ops()`), the bound op (`op()`) and the time code. -/
structure TransformManipulator where
  prim : SdfPath
  ops : List UsdGeomXformOp
  op : UsdGeomXformOp
  timeCode : UsdTimeCode
  deriving DecidableEq, Repr

/-- Modelled from the spec: the constructor of `MayaUsdUtils::TransformManipulator` (absent),
called with an empty name and `kTranslate`; it resolves an existing operation of the requested
kind on the node, the first accepted op of the op stack, and throws (`none`) when no matching
operation exists. -/
def TransformManipulator.create (env : Env) (s : UsdStage) (prim : SdfPath)
    (timeCode : UsdTimeCode) : Option TransformManipulator :=
  let ops := (UsdGeomXformable.GetOrderedXformOps env s prim).1
  match ops.find? env.accepts with
  | some op => some ⟨prim, ops, op, timeCode⟩
  | none => none

/-- The translation a held value encodes: the vector of a pure translate in any of the three
precisions, the translation row of a matrix, and zero when there is no such value. -/
def decodeTranslation : Option VtValue → GfVec3d
  | some (.vec3 _ v) => v
  | some (.matrix4d m) => ⟨m.r3.x, m.r3.y, m.r3.z⟩
  | _ => ⟨0, 0, 0⟩

/-- Modelled from the spec: `TransformManipulator::Translation` (absent); reads the current
translation of the bound op, decoded according to its authored precision: the vector of a
pure translate, the translation row of a matrix op. -/
def TransformManipulator.Translation (env : Env) (s : UsdStage) (proc : TransformManipulator) :
    GfVec3d :=
  decodeTranslation (proc.op.Get env s proc.timeCode)

/-- Modelled from the spec: the write at the end of `TransformManipulator::Translate`
(absent); the translation `v` goes back in the original precision and type of the op: a pure
translate op gets a 3-vector in the authored precision, a combined matrix op gets its matrix
back with only the translation row replaced. -/
def TransformManipulator.writeTranslation (env : Env) (s : UsdStage)
    (proc : TransformManipulator) (v : GfVec3d) : UsdStage :=
  match proc.op.GetOpType with
  | some .TypeTranslate => proc.op.Set s (.vec3 (proc.op.GetPrecision s) v) proc.timeCode
  | some .TypeTransform =>
    match proc.op.Get env s proc.timeCode with
    | some (.matrix4d m) =>
      proc.op.Set s (.matrix4d { m with r3 := ⟨v.x, v.y, v.z, m.r3.w⟩ }) proc.timeCode
    | _ => s
  | _ => s

/-- Modelled from the spec: `TransformManipulator::Translate` (absent); writes
`current + delta` back in the original precision and type of the op: a pure translate op
gets a 3-vector in the authored precision, a combined matrix op gets its matrix back with
only the translation row replaced.  The space argument (`none` when left to its default) does
not enter: only the derivation of the delta differs between the spaces. -/
def TransformManipulator.Translate (env : Env) (s : UsdStage) (proc : TransformManipulator)
    (translateChange : GfVec3d) (_space : Option Space) : UsdStage :=
  proc.writeTranslation env s ((proc.Translation env s).add translateChange)

/-- Modelled from the spec: `TransformManipulator::EvaluateCoordinateFrameForIndex` (absent);
the matrix obtained by composing all operations strictly before the index, evaluated at the
time, in stack order, each one multiplied into the running frame. -/
def EvaluateCoordinateFrameForIndex (env : Env) (s : UsdStage) (ops : List UsdGeomXformOp)
    (index : Nat) (time : UsdTimeCode) : GfMatrix4d :=
  (ops.take index).foldl (fun frame op => multiply4x4 frame (op.GetOpTransform env s time))
    GfMatrix4d.identity

/-! ## The command -/

/-- The data members of `UsdTranslateUndoableCommand`.  `fEditTarget` is `none` while it is
the default-constructed edit target, which names no layer. -/
structure UsdTranslateUndoableCommand where
  fPrim : SdfPath
  fPrevValue : GfVec3d
  fNewValue : GfVec3d
  fPath : SdfPath
  fTimeCode : UsdTimeCode
  fOp : UsdGeomXformOp
  fEditTarget : Option UsdEditTarget
  fCreatedOp : Bool
  fCreatedOrderedAttr : Bool
  deriving DecidableEq, Repr

/-- Function `ExistingOpHasSamples`. -/
def ExistingOpHasSamples (s : UsdStage) (op : UsdGeomXformOp) : Bool :=
  op.GetNumTimeSamples s != 0

/-- The constructor of `UsdTranslateUndoableCommand` (reached through `create`): the command
and the stage it leaves.  The `try` block binds a manipulator; the `catch` block creates the
translate op at the head of the op stack.  (`xformOpOrder` may be valid through a schema
fallback alone; it has no authored value then, and both arms of the conditional that sets
`fCreatedOrderedAttr` give `true`.) -/
def UsdTranslateUndoableCommand.create (env : Env) (s : UsdStage) (item : SdfPath)
    (x y z : ℚ) (timeCode : UsdTimeCode) : UsdTranslateUndoableCommand × UsdStage :=
  match TransformManipulator.create env s item timeCode with
  | some proc =>
    let fOp := proc.op
    -- only write time samples if op already has samples
    let fTimeCode := if !ExistingOpHasSamples s fOp then UsdTimeCode.Default else timeCode
    ({ fPrim := item, fPrevValue := proc.Translation env s, fNewValue := ⟨x, y, z⟩,
       fPath := item, fTimeCode := fTimeCode, fOp := fOp, fEditTarget := none,
       fCreatedOp := false, fCreatedOrderedAttr := false }, s)
  | none =>
    let fCreatedOrderedAttr :=
      if UsdAttribute.IsValid s item .xformOpOrder
      then !UsdAttribute.HasAuthoredValue s item .xformOpOrder else true
    let (ops, reset) := UsdGeomXformable.GetOrderedXformOps env s item
    let (fOp, s1) := UsdGeomXformable.AddTranslateOp env s item .PrecisionDouble
    let s2 := UsdGeomXformable.SetXformOpOrder s1 item (fOp :: ops) reset
    ({ fPrim := item, fPrevValue := ⟨0, 0, 0⟩, fNewValue := ⟨x, y, z⟩,
       fPath := item, fTimeCode := UsdTimeCode.Default, fOp := fOp,
       fEditTarget := some s2.editTarget,
       fCreatedOp := true, fCreatedOrderedAttr := fCreatedOrderedAttr }, s2)

/-- `UsdEditTarget::GetPrimSpecForScenePath`: the prim spec on the layer of the edit target. -/
def GetPrimSpecForScenePath (s : UsdStage) (target : Option UsdEditTarget) (path : SdfPath) :
    Option SdfPrimSpec :=
  match target with
  | none => none
  | some i => (s.layers.get? i).bind (fun l => l.GetPrimAtPath path)

/-- The loop of `undo` over the ordered ops: the first op whose attribute name is `opName` is
erased; `none` when no op has that name. -/
def eraseOpNamed : List UsdGeomXformOp → TfToken → Option (List UsdGeomXformOp)
  | [], _ => none
  | op :: rest, opName =>
    if op.GetName = opName then some rest
    else (eraseOpNamed rest opName).map (fun ops => op :: ops)

/-- Method `undo`: the stage it leaves. -/
def UsdTranslateUndoableCommand.undo (env : Env) (s : UsdStage)
    (cmd : UsdTranslateUndoableCommand) : UsdStage :=
  if cmd.fCreatedOp then
    match cmd.fEditTarget, GetPrimSpecForScenePath s cmd.fEditTarget cmd.fPrim with
    | some target, some _ =>
      -- the xform ops are read before the attribute spec is removed
      let (ops, reset) := UsdGeomXformable.GetOrderedXformOps env s cmd.fPrim
      let opName := cmd.fOp.GetName
      let s1 := s.authorAt target cmd.fPrim
        (fun ps => ⟨removeAttrSpecNamed ps.attributes opName⟩)
      if cmd.fCreatedOrderedAttr then
        s1.authorAt target cmd.fPrim
          (fun ps => ⟨removeAttrSpecNamed ps.attributes .xformOpOrder⟩)
      else
        match eraseOpNamed ops opName with
        | some ops1 => UsdGeomXformable.SetXformOpOrder s1 cmd.fPrim ops1 reset
        | none => s1
    | _, _ => s
  else
    -- do nothing
    if GfIsClose cmd.fNewValue cmd.fPrevValue undoTolerance then s
    else
      match cmd.fOp.GetOpType with
      | some .TypeTranslate =>
        match cmd.fOp.GetPrecision s with
        | .PrecisionHalf =>
          cmd.fOp.Set s
            (.vec3 .PrecisionHalf ⟨cmd.fPrevValue.x, cmd.fPrevValue.y, cmd.fPrevValue.z⟩)
            cmd.fTimeCode
        | .PrecisionFloat =>
          cmd.fOp.Set s
            (.vec3 .PrecisionFloat ⟨cmd.fPrevValue.x, cmd.fPrevValue.y, cmd.fPrevValue.z⟩)
            cmd.fTimeCode
        | .PrecisionDouble =>
          cmd.fOp.Set s (.vec3 .PrecisionDouble cmd.fPrevValue) cmd.fTimeCode
      | some .TypeTransform =>
        let M : GfMatrix4d :=
          match cmd.fOp.Get env s cmd.fTimeCode with
          | some (.matrix4d m) => m
          | _ => env.uninitialised
        let M1 : GfMatrix4d := { M with r3 := { M.r3 with x := cmd.fPrevValue.x } }
        let M2 : GfMatrix4d := { M1 with r3 := { M1.r3 with y := cmd.fPrevValue.y } }
        let M3 : GfMatrix4d := { M2 with r3 := { M2.r3 with z := cmd.fPrevValue.z } }
        cmd.fOp.Set s (.matrix4d M3) cmd.fTimeCode
      | _ => s

/-- Method `redo`: empty. -/
def UsdTranslateUndoableCommand.redo (s : UsdStage) (_cmd : UsdTranslateUndoableCommand) :
    UsdStage := s

/-- Method `translate`: the returned flag, the command and the stage after the call.
`space` is the result of `CurrentTranslateManipulatorSpace()`. -/
def UsdTranslateUndoableCommand.translate (env : Env) (space : Space) (s : UsdStage)
    (cmd : UsdTranslateUndoableCommand) (x y z : ℚ) :
    Bool × UsdTranslateUndoableCommand × UsdStage :=
  let cmd1 := { cmd with fNewValue := (⟨x, y, z⟩ : GfVec3d) }
  match TransformManipulator.create env s cmd1.fPrim cmd1.fTimeCode with
  | none => (false, cmd1, s)
  | some proc =>
    let m := EvaluateCoordinateFrameForIndex env s proc.ops proc.ops.length cmd1.fTimeCode
    match space with
    | .kPreTransform =>
      let diff := set4d cmd1.fNewValue.x cmd1.fNewValue.y cmd1.fNewValue.z 1
      let diff := sub4d diff (load4d (m.row 3))
      (true, cmd1,
        proc.Translate env s ⟨get 0 diff, get 1 diff, get 2 diff⟩ (some .kPreTransform))
    | .kPostTransform =>
      -- the difference according to maya (effectively in parent space)
      let diff := sub4d (set4d cmd1.fNewValue.x cmd1.fNewValue.y cmd1.fNewValue.z 0)
        (loadu4d (m.row 3))
      let diff := select4d true true true false diff zero4d
      -- rotate into the coordinate frame of the xform
      let diff := rotate diff m.row
      (true, cmd1,
        proc.Translate env s ⟨get 0 diff, get 1 diff, get 2 diff⟩ (some .kPreTransform))
    | .kWorld =>
      let diff := set4d cmd1.fNewValue.x cmd1.fNewValue.y cmd1.fNewValue.z 1
      let procc := proc.Translation env s
      let diff := sub4d diff (set4d procc.x procc.y procc.z 0)
      (true, cmd1,
        proc.Translate env s ⟨get 0 diff, get 1 diff, get 2 diff⟩ (some .kPreTransform))
    | .kTransform =>
      (true, cmd1, proc.Translate env s (cmd1.fNewValue.sub (proc.Translation env s)) none)

/-- The relation between a stage and a later one that differs from it by values authored on
the edit target: the edit target, the layers stronger than it, the number of layers and the
declared type of every attribute are the same. -/
def UsdStage.AuthoredFrom (s' s : UsdStage) : Prop :=
  s'.editTarget = s.editTarget ∧
  s'.layers.take s.editTarget = s.layers.take s.editTarget ∧
  s'.layers.length = s.layers.length ∧
  ∀ (q : SdfPath) (m : TfToken), UsdAttribute.GetTypeName s' q m = UsdAttribute.GetTypeName s q m

/-- The relation between a stage and a later one that differs from it by specs and values
authored on the edit target: the edit target, the layers stronger than it and the number of
layers are the same, and every attribute that was declared still is, with the same type. -/
def UsdStage.Extends (s' s : UsdStage) : Prop :=
  s'.editTarget = s.editTarget ∧
  s'.layers.take s.editTarget = s.layers.take s.editTarget ∧
  s'.layers.length = s.layers.length ∧
  ∀ (q : SdfPath) (m : TfToken) (t : SdfValueTypeName),
    UsdAttribute.GetTypeName s q m = some t → UsdAttribute.GetTypeName s' q m = some t

/-- The ops of a list all belong to the prim and have an attribute on the stage. -/
def opsResolve (s : UsdStage) (prim : SdfPath) (ops : List UsdGeomXformOp) : Prop :=
  ∀ op ∈ ops, ∃ (opType : XformOpType) (suffix : String) (inverse : Bool),
    op = .op prim opType suffix inverse ∧
    UsdAttribute.IsValid s prim (.xformOp opType suffix false) = true

/-! ## Concrete scenes -/

/-- An environment for the worked scenes: the manipulator binds to the op listed as
`xformOp:translate` or as `xformOp:transform`, no other op contributes to a frame, and nothing
is interpolated. -/
def sceneEnv : Env :=
  { accepts := fun op =>
      decide (op.GetOpName = .xformOp .TypeTranslate "" false) ||
      decide (op.GetOpName = .xformOp .TypeTransform "" false),
    opTransform := fun _ _ _ => GfMatrix4d.identity,
    interpolate := fun _ _ => none,
    uninitialised := GfMatrix4d.identity }

/-- The attribute spec `float3 xformOp:rotateXYZ = (0, 90, 0)`. -/
def rotateSpec : SdfAttributeSpec :=
  ⟨.xformOp .TypeRotateXYZ "" false, .vec3 .PrecisionFloat,
    some (.vec3 .PrecisionFloat ⟨0, 90, 0⟩), []⟩

/-- The attribute spec `uniform token[] xformOpOrder = ["xformOp:rotateXYZ"]`. -/
def rotateOrderSpec : SdfAttributeSpec :=
  ⟨.xformOpOrder, .tokenArray, some (.tokens [.xformOp .TypeRotateXYZ "" false]), []⟩

/-- A layer that defines `/p` with a rotate op listed in `xformOpOrder`. -/
def rotateLayer : SdfLayer := ⟨[("/p", ⟨[rotateSpec, rotateOrderSpec]⟩)]⟩

/-- A layer without any spec. -/
def emptyLayer : SdfLayer := ⟨[]⟩

/-- A stage of one layer in which `/p` has no attribute at all. -/
def bareStage : UsdStage := ⟨[⟨[("/p", ⟨[]⟩)]⟩], 0⟩

/-- A stage of two layers: the edit target is the stronger, empty layer, and the weaker
layer defines `/p` with a rotate op. -/
def overStage : UsdStage := ⟨[emptyLayer, rotateLayer], 0⟩

/-- A stage of two layers: the edit target is the stronger layer, which defines `/p` with a
rotate op; the weaker layer is empty. -/
def twoLayerStage : UsdStage := ⟨[rotateLayer, emptyLayer], 0⟩

/-- A stage of one layer in which `/p` has the attribute `double3 xformOp:translate =
(5, 5, 5)` that no `xformOpOrder` lists. -/
def unlistedStage : UsdStage :=
  ⟨[⟨[("/p", ⟨[⟨.xformOp .TypeTranslate "" false, .vec3 .PrecisionDouble,
      some (.vec3 .PrecisionDouble ⟨5, 5, 5⟩), []⟩]⟩)]⟩], 0⟩

/-- The attribute spec `uniform token[] xformOpOrder = ["xformOp:translate"]`. -/
def translateOrderSpec : SdfAttributeSpec :=
  ⟨.xformOpOrder, .tokenArray, some (.tokens [.xformOp .TypeTranslate "" false]), []⟩

/-- A stage of one layer in which `/p` has a translate op of the given precision, holding
`v` as its default value and listed in `xformOpOrder`. -/
def translateStage (p : Precision) (v : GfVec3d) : UsdStage :=
  ⟨[⟨[("/p", ⟨[⟨.xformOp .TypeTranslate "" false, .vec3 p, some (.vec3 p v), []⟩,
      translateOrderSpec]⟩)]⟩], 0⟩

/-- A matrix with a rotation part and the translation `(1, 2, 3)`. -/
def sampleMatrix : GfMatrix4d :=
  ⟨⟨0, 1, 0, 0⟩, ⟨-1, 0, 0, 0⟩, ⟨0, 0, 2, 0⟩, ⟨1, 2, 3, 1⟩⟩

/-- A stage of one layer in which `/p` has the matrix op `xformOp:transform`, holding
`sampleMatrix` and listed in `xformOpOrder`. -/
def matrixStage : UsdStage :=
  ⟨[⟨[("/p", ⟨[⟨.xformOp .TypeTransform "" false, .matrix4d, some (.matrix4d sampleMatrix), []⟩,
      ⟨.xformOpOrder, .tokenArray, some (.tokens [.xformOp .TypeTransform "" false]), []⟩]⟩)]⟩],
    0⟩

/-- The manipulator bound to `xformOp:translate` on a `translateStage`. -/
def translateProc : TransformManipulator :=
  ⟨"/p", [.op "/p" .TypeTranslate "" false], .op "/p" .TypeTranslate "" false, .Default⟩

/-- A command bound to the matrix op of `/p` with the given previous and new value. -/
def matrixCommand (prev new : GfVec3d) : UsdTranslateUndoableCommand :=
  { fPrim := "/p", fPrevValue := prev, fNewValue := new, fPath := "/p",
    fTimeCode := .Default, fOp := .op "/p" .TypeTransform "" false, fEditTarget := none,
    fCreatedOp := false, fCreatedOrderedAttr := false }

/-- A command bound to the translate op of `/p` with the given previous and new value. -/
def boundCommand (prev new : GfVec3d) : UsdTranslateUndoableCommand :=
  { fPrim := "/p", fPrevValue := prev, fNewValue := new, fPath := "/p",
    fTimeCode := .Default, fOp := .op "/p" .TypeTranslate "" false, fEditTarget := none,
    fCreatedOp := false, fCreatedOrderedAttr := false }

/-- A stage of one layer in which `/p` has `double3 xformOp:translate = v`, the rotate op
`float3 xformOp:rotateXYZ = (0, 90, 0)` and the given tokens as its `xformOpOrder`. -/
def stackStage (v : GfVec3d) (order : List TfToken) : UsdStage :=
  ⟨[⟨[("/p", ⟨[⟨.xformOp .TypeTranslate "" false, .vec3 .PrecisionDouble,
        some (.vec3 .PrecisionDouble v), []⟩,
      rotateSpec,
      ⟨.xformOpOrder, .tokenArray, some (.tokens order), []⟩]⟩)]⟩], 0⟩

/-- The op stack `[translate, rotate]`. -/
def translateRotateOrder : List TfToken :=
  [.xformOp .TypeTranslate "" false, .xformOp .TypeRotateXYZ "" false]

/-- An op stack in which the translate op is paired with its inverse:
`["xformOp:translate", "xformOp:rotateXYZ", "!invert!xformOp:translate"]`. -/
def pairedOrder : List TfToken :=
  [.xformOp .TypeTranslate "" false, .xformOp .TypeRotateXYZ "" false,
    .xformOp .TypeTranslate "" true]

/-- A command that created its translate op on `/p` while the edit target was layer 0. -/
def createdCommand (createdOrderedAttr : Bool) : UsdTranslateUndoableCommand :=
  { fPrim := "/p", fPrevValue := ⟨0, 0, 0⟩, fNewValue := ⟨0, 0, 0⟩, fPath := "/p",
    fTimeCode := .Default, fOp := .op "/p" .TypeTranslate "" false, fEditTarget := some 0,
    fCreatedOp := true, fCreatedOrderedAttr := createdOrderedAttr }

/-- A stage of one layer in which `/p` holds only `xformOpOrder = ["xformOp:translate"]`:
what is left of a created op after the spec of `xformOp:translate` was removed by another
edit. -/
def orphanedOrderStage : UsdStage := ⟨[⟨[("/p", ⟨[translateOrderSpec]⟩)]⟩], 0⟩

/-! ## Theorems -/

/-! ### Lists -/

theorem modifyNth_length {α : Type} (f : α → α) (l : List α) (n : Nat) :
    (modifyNth f l n).length = l.length := by
  induction l generalizing n with
  | nil => rfl
  | cons a rest ih => cases n <;> simp [modifyNth, ih]

theorem modifyNth_of_none {α : Type} (f : α → α) (l : List α) (n : Nat)
    (h : l.get? n = none) : modifyNth f l n = l := by
  induction l generalizing n with
  | nil => rfl
  | cons a rest ih =>
    cases n with
    | zero => simp at h
    | succ n => simpa [modifyNth] using ih n (by simpa using h)

theorem modifyNth_of_some {α : Type} (f : α → α) (l : List α) (n : Nat) (a : α)
    (h : l.get? n = some a) : modifyNth f l n = l.take n ++ f a :: l.drop (n + 1) := by
  induction l generalizing n with
  | nil => simp at h
  | cons b rest ih =>
    cases n with
    | zero => simp at h; simp [modifyNth, h]
    | succ n => simpa [modifyNth] using ih n (by simpa using h)

theorem split_of_some {α : Type} (l : List α) (n : Nat) (a : α)
    (h : l.get? n = some a) : l = l.take n ++ a :: l.drop (n + 1) := by
  induction l generalizing n with
  | nil => simp at h
  | cons b rest ih =>
    cases n with
    | zero => simp at h; simp [h]
    | succ n => simpa using ih n (by simpa using h)

theorem modifyNth_get_ne {α : Type} (f : α → α) (l : List α) (n i : Nat) (h : i ≠ n) :
    (modifyNth f l n).get? i = l.get? i := by
  induction l generalizing n i with
  | nil => rfl
  | cons a rest ih =>
    cases n with
    | zero => cases i with
      | zero => exact absurd rfl h
      | succ i => simp [modifyNth]
    | succ n => cases i with
      | zero => simp [modifyNth]
      | succ i => simpa [modifyNth] using ih n i (by omega)

theorem modifyNth_get_eq {α : Type} (f : α → α) (l : List α) (n : Nat) :
    (modifyNth f l n).get? n = (l.get? n).map f := by
  induction l generalizing n with
  | nil => rfl
  | cons a rest ih =>
    cases n with
    | zero => simp [modifyNth]
    | succ n => simpa [modifyNth] using ih n

theorem modifyNth_modifyNth {α : Type} (f g : α → α) (l : List α) (n : Nat) :
    modifyNth f (modifyNth g l n) n = modifyNth (fun a => f (g a)) l n := by
  induction l generalizing n with
  | nil => rfl
  | cons a rest ih => cases n <;> simp [modifyNth, ih]

theorem take_modifyNth {α : Type} (f : α → α) (l : List α) (n : Nat) :
    (modifyNth f l n).take n = l.take n := by
  induction l generalizing n with
  | nil => rfl
  | cons a rest ih => cases n <;> simp [modifyNth, ih]

/-! ### Specs -/

theorem getPrimSpec_putPrimSpec_eq (l : List (SdfPath × SdfPrimSpec)) (path : SdfPath)
    (ps : SdfPrimSpec) : getPrimSpec (putPrimSpec l path ps) path = some ps := by
  induction l with
  | nil => simp [putPrimSpec, getPrimSpec]
  | cons a rest ih =>
    obtain ⟨q, qs⟩ := a
    by_cases h : q = path
    · simp [putPrimSpec, getPrimSpec, h]
    · simp [putPrimSpec, getPrimSpec, h, ih]

theorem getPrimSpec_putPrimSpec_ne (l : List (SdfPath × SdfPrimSpec)) (path other : SdfPath)
    (ps : SdfPrimSpec) (h : other ≠ path) :
    getPrimSpec (putPrimSpec l path ps) other = getPrimSpec l other := by
  induction l with
  | nil => simp [putPrimSpec, getPrimSpec, Ne.symm h]
  | cons a rest ih =>
    obtain ⟨q, qs⟩ := a
    by_cases hq : q = path
    · subst hq; simp [putPrimSpec, getPrimSpec, Ne.symm h]
    · by_cases hq2 : q = other
      · subst hq2; simp [putPrimSpec, getPrimSpec, hq]
      · simp [putPrimSpec, getPrimSpec, hq, hq2, ih]

theorem find_modifyAttrSpec_eq (f : SdfAttributeSpec → SdfAttributeSpec)
    (hf : ∀ a, (f a).name = a.name) (attrs : List SdfAttributeSpec) (name : TfToken) :
    (modifyAttrSpec f attrs name).find? (fun a => decide (a.name = name)) =
      (attrs.find? (fun a => decide (a.name = name))).map f := by
  induction attrs with
  | nil => rfl
  | cons a rest ih =>
    by_cases h : a.name = name
    · simp [modifyAttrSpec, h, List.find?, hf]
    · simp [modifyAttrSpec, h, List.find?, ih]

theorem find_modifyAttrSpec_ne (f : SdfAttributeSpec → SdfAttributeSpec)
    (hf : ∀ a, (f a).name = a.name) (attrs : List SdfAttributeSpec) (name other : TfToken)
    (h : other ≠ name) :
    (modifyAttrSpec f attrs name).find? (fun a => decide (a.name = other)) =
      attrs.find? (fun a => decide (a.name = other)) := by
  induction attrs with
  | nil => rfl
  | cons a rest ih =>
    by_cases h1 : a.name = name
    · have h2 : ¬ a.name = other := fun h3 => h (h3 ▸ h1)
      simp [modifyAttrSpec, h1, List.find?, hf, Ne.symm h]
    · by_cases h2 : a.name = other
      · simp [modifyAttrSpec, h1, List.find?, h2]
        rw [if_neg (fun h3 => h1 (h2.trans h3))]
        simp [h2]
      · simp [modifyAttrSpec, h1, List.find?, h2, ih]

theorem setValue_name (spec : SdfAttributeSpec) (v : VtValue) (time : UsdTimeCode) :
    (spec.setValue v time).name = spec.name := by
  cases time <;> rfl

theorem setValue_typeName (spec : SdfAttributeSpec) (v : VtValue) (time : UsdTimeCode) :
    (spec.setValue v time).typeName = spec.typeName := by
  cases time <;> rfl

/-! ### Layers -/

theorem editPrimSpec_GetPrimAtPath_eq (l : SdfLayer) (path : SdfPath)
    (f : SdfPrimSpec → SdfPrimSpec) :
    (l.editPrimSpec path f).GetPrimAtPath path = some (f ((l.GetPrimAtPath path).getD ⟨[]⟩)) := by
  simp [SdfLayer.editPrimSpec, SdfLayer.GetPrimAtPath, getPrimSpec_putPrimSpec_eq]

theorem editPrimSpec_GetPrimAtPath_ne (l : SdfLayer) (path other : SdfPath)
    (f : SdfPrimSpec → SdfPrimSpec) (h : other ≠ path) :
    (l.editPrimSpec path f).GetPrimAtPath other = l.GetPrimAtPath other := by
  simp [SdfLayer.editPrimSpec, SdfLayer.GetPrimAtPath, getPrimSpec_putPrimSpec_ne _ _ _ _ h]

/-- The layers after a successful `UsdAttribute::Set`. -/
theorem Set_of_match (s : UsdStage) (path : SdfPath) (name : TfToken) (v : VtValue)
    (time : UsdTimeCode) (typeName : SdfValueTypeName)
    (hty : UsdAttribute.GetTypeName s path name = some typeName)
    (hv : v.typeName = typeName) :
    UsdAttribute.Set s path name v time =
      ⟨modifyNth (fun l => l.withValue path name typeName v time) s.layers s.editTarget,
        s.editTarget⟩ := by
  simp [UsdAttribute.Set, hty, hv, UsdStage.CreateAttributeSpecForEditing, UsdStage.authorAt,
    modifyNth_modifyNth, SdfLayer.withValue]

theorem Set_of_mismatch (s : UsdStage) (path : SdfPath) (name : TfToken) (v : VtValue)
    (time : UsdTimeCode) (h : UsdAttribute.GetTypeName s path name ≠ some v.typeName) :
    UsdAttribute.Set s path name v time = s := by
  unfold UsdAttribute.Set
  cases hty : UsdAttribute.GetTypeName s path name with
  | none => rfl
  | some ty =>
    have : ¬ v.typeName = ty := fun h2 => h (by rw [hty, h2])
    simp [this]

/-- The spec of the written attribute on the edited layer. -/
theorem withValue_GetAttributeSpec_eq (l : SdfLayer) (path : SdfPath) (name : TfToken)
    (v : VtValue) (time : UsdTimeCode) (typeName : SdfValueTypeName) :
    (l.withValue path name typeName v time).GetAttributeSpec path name =
    some (((l.GetAttributeSpec path name).getD ⟨name, typeName, none, []⟩).setValue v time) := by
  simp only [SdfLayer.withValue, SdfLayer.GetAttributeSpec, editPrimSpec_GetPrimAtPath_eq,
    Option.getD_some, Option.some_bind, SdfPrimSpec.GetAttributeSpec,
    SdfPrimSpec.setAttributeValue]
  rw [find_modifyAttrSpec_eq _ (fun a => setValue_name a v time)]
  cases hp : l.GetPrimAtPath path with
  | none => simp [SdfPrimSpec.ensureAttributeSpec, SdfPrimSpec.GetAttributeSpec]
  | some ps =>
    cases ha : ps.GetAttributeSpec name with
    | none =>
      simp only [SdfPrimSpec.GetAttributeSpec] at ha
      simp [SdfPrimSpec.ensureAttributeSpec, ha, SdfPrimSpec.GetAttributeSpec, List.find?_append]
    | some a =>
      simp only [SdfPrimSpec.GetAttributeSpec] at ha
      simp [SdfPrimSpec.ensureAttributeSpec, ha, SdfPrimSpec.GetAttributeSpec]

/-- The specs of the other attributes of the prim on the edited layer. -/
theorem withValue_GetAttributeSpec_ne (l : SdfLayer) (path : SdfPath) (name other : TfToken)
    (v : VtValue) (time : UsdTimeCode) (typeName : SdfValueTypeName) (h : other ≠ name) :
    (l.withValue path name typeName v time).GetAttributeSpec path other =
      l.GetAttributeSpec path other := by
  simp only [SdfLayer.withValue, SdfLayer.GetAttributeSpec, editPrimSpec_GetPrimAtPath_eq,
    Option.getD_some, Option.some_bind, SdfPrimSpec.GetAttributeSpec,
    SdfPrimSpec.setAttributeValue]
  rw [find_modifyAttrSpec_ne _ (fun a => setValue_name a v time) _ _ _ h]
  cases hp : l.GetPrimAtPath path with
  | none => simp [SdfPrimSpec.ensureAttributeSpec, SdfPrimSpec.GetAttributeSpec, Ne.symm h]
  | some ps =>
    cases ha : ps.GetAttributeSpec name with
    | none =>
      simp [SdfPrimSpec.ensureAttributeSpec, ha, List.find?_append, Ne.symm h]
    | some a =>
      simp [SdfPrimSpec.ensureAttributeSpec, ha]

/-- The specs of the other prims on the edited layer. -/
theorem withValue_GetAttributeSpec_other (l : SdfLayer) (path q : SdfPath) (name other : TfToken)
    (v : VtValue) (time : UsdTimeCode) (typeName : SdfValueTypeName) (h : q ≠ path) :
    (l.withValue path name typeName v time).GetAttributeSpec q other =
      l.GetAttributeSpec q other := by
  simp [SdfLayer.withValue, SdfLayer.GetAttributeSpec, editPrimSpec_GetPrimAtPath_ne _ _ _ _ h]

theorem authorAt_get_ne (s : UsdStage) (target : UsdEditTarget) (path : SdfPath)
    (f : SdfPrimSpec → SdfPrimSpec) (i : Nat) (h : i ≠ target) :
    (s.authorAt target path f).layers.get? i = s.layers.get? i :=
  modifyNth_get_ne _ _ _ _ h

/-! ### Property stacks -/

theorem propertyStack_split (s : UsdStage) (path : SdfPath) (name : TfToken) (l : SdfLayer)
    (hl : s.layers.get? s.editTarget = some l) :
    s.propertyStack path name =
      s.strongerSpecs path name ++ ((l.GetAttributeSpec path name).toList ++
        (s.layers.drop (s.editTarget + 1)).filterMap (fun l => l.GetAttributeSpec path name)) := by
  unfold UsdStage.propertyStack UsdStage.strongerSpecs
  conv => lhs; rw [split_of_some s.layers s.editTarget l hl]
  rw [List.filterMap_append, List.filterMap_cons]
  cases l.GetAttributeSpec path name <;> simp

theorem propertyStack_Set_eq (s : UsdStage) (path : SdfPath) (name : TfToken) (v : VtValue)
    (time : UsdTimeCode) (typeName : SdfValueTypeName) (l : SdfLayer)
    (hty : UsdAttribute.GetTypeName s path name = some typeName)
    (hv : v.typeName = typeName) (hl : s.layers.get? s.editTarget = some l) :
    (UsdAttribute.Set s path name v time).propertyStack path name =
      s.strongerSpecs path name ++
        (((l.GetAttributeSpec path name).getD ⟨name, typeName, none, []⟩).setValue v time ::
        (s.layers.drop (s.editTarget + 1)).filterMap (fun l => l.GetAttributeSpec path name)) := by
  rw [Set_of_match s path name v time typeName hty hv]
  unfold UsdStage.propertyStack UsdStage.strongerSpecs
  simp only
  rw [modifyNth_of_some _ _ _ l hl, List.filterMap_append, List.filterMap_cons,
    withValue_GetAttributeSpec_eq]

theorem propertyStack_Set_ne (s : UsdStage) (path q : SdfPath) (name other : TfToken)
    (v : VtValue) (time : UsdTimeCode) (h : q ≠ path ∨ other ≠ name) :
    (UsdAttribute.Set s path name v time).propertyStack q other = s.propertyStack q other := by
  by_cases hm : UsdAttribute.GetTypeName s path name = some v.typeName
  · rw [Set_of_match s path name v time v.typeName hm rfl]
    unfold UsdStage.propertyStack
    simp only
    cases hl : s.layers.get? s.editTarget with
    | none => rw [modifyNth_of_none _ _ _ hl]
    | some l =>
      have hg : (l.withValue path name v.typeName v time).GetAttributeSpec q other =
          l.GetAttributeSpec q other := by
        by_cases hq : q = path
        · subst hq
          exact withValue_GetAttributeSpec_ne _ _ _ _ _ _ _ (h.resolve_left (fun h => h rfl))
        · exact withValue_GetAttributeSpec_other _ _ _ _ _ _ _ _ hq
      rw [modifyNth_of_some _ _ _ l hl]
      conv => rhs; rw [split_of_some s.layers s.editTarget l hl]
      simp only [List.filterMap_append, List.filterMap_cons, hg]
  · rw [Set_of_mismatch s path name v time hm]

theorem Set_editTarget (s : UsdStage) (path : SdfPath) (name : TfToken) (v : VtValue)
    (time : UsdTimeCode) : (UsdAttribute.Set s path name v time).editTarget = s.editTarget := by
  by_cases hm : UsdAttribute.GetTypeName s path name = some v.typeName
  · rw [Set_of_match s path name v time v.typeName hm rfl]
  · rw [Set_of_mismatch s path name v time hm]

theorem Set_take (s : UsdStage) (path : SdfPath) (name : TfToken) (v : VtValue)
    (time : UsdTimeCode) :
    (UsdAttribute.Set s path name v time).layers.take s.editTarget =
      s.layers.take s.editTarget := by
  by_cases hm : UsdAttribute.GetTypeName s path name = some v.typeName
  · rw [Set_of_match s path name v time v.typeName hm rfl]
    exact take_modifyNth _ _ _
  · rw [Set_of_mismatch s path name v time hm]

theorem Set_length (s : UsdStage) (path : SdfPath) (name : TfToken) (v : VtValue)
    (time : UsdTimeCode) :
    (UsdAttribute.Set s path name v time).layers.length = s.layers.length := by
  by_cases hm : UsdAttribute.GetTypeName s path name = some v.typeName
  · rw [Set_of_match s path name v time v.typeName hm rfl]
    exact modifyNth_length _ _ _
  · rw [Set_of_mismatch s path name v time hm]

/-- `UsdAttribute::Set` never changes the declared type of an attribute. -/
theorem GetTypeName_Set (s : UsdStage) (path q : SdfPath) (name other : TfToken)
    (v : VtValue) (time : UsdTimeCode) :
    UsdAttribute.GetTypeName (UsdAttribute.Set s path name v time) q other =
      UsdAttribute.GetTypeName s q other := by
  by_cases h : q ≠ path ∨ other ≠ name
  · unfold UsdAttribute.GetTypeName
    rw [propertyStack_Set_ne s path q name other v time h]
  · have hq : q = path := by by_contra hq; exact h (Or.inl hq)
    have ho : other = name := by by_contra ho; exact h (Or.inr ho)
    subst hq; subst ho
    by_cases hm : UsdAttribute.GetTypeName s q other = some v.typeName
    · cases hl : s.layers.get? s.editTarget with
      | none =>
        rw [Set_of_match s q other v time v.typeName hm rfl, modifyNth_of_none _ _ _ hl]
      | some l =>
        have hm2 := hm
        unfold UsdAttribute.GetTypeName at hm2 ⊢
        rw [propertyStack_Set_eq s q other v time v.typeName l hm rfl hl]
        rw [propertyStack_split s q other l hl] at hm2 ⊢
        cases hA : s.strongerSpecs q other with
        | cons a rest => simp
        | nil =>
          rw [hA] at hm2
          cases he : l.GetAttributeSpec q other with
          | some e => simp [setValue_typeName]
          | none =>
            rw [he] at hm2
            simp only [List.nil_append, Option.toList] at hm2
            simp at hm2
            simp [setValue_typeName, hm2]
    · rw [Set_of_mismatch s q other v time hm]

/-! ### Reading after writing -/

theorem find_setTimeSample (l : List (ℚ × VtValue)) (t : ℚ) (v : VtValue) :
    (setTimeSample l t v).find? (fun p => decide (p.1 = t)) = some (t, v) := by
  induction l with
  | nil => simp [setTimeSample]
  | cons a rest ih =>
    obtain ⟨u, w⟩ := a
    by_cases h1 : u = t
    · simp [setTimeSample, h1]
    · by_cases h2 : t < u
      · simp [setTimeSample, h1, h2]
      · simp [setTimeSample, h1, h2, ih]

theorem setTimeSample_isEmpty (l : List (ℚ × VtValue)) (t : ℚ) (v : VtValue) :
    (setTimeSample l t v).isEmpty = false := by
  cases l with
  | nil => rfl
  | cons a rest =>
    obtain ⟨u, w⟩ := a
    by_cases h1 : u = t
    · simp [setTimeSample, h1]
    · by_cases h2 : t < u <;> simp [setTimeSample, h1, h2]

theorem specHasValueAt_setValue (spec : SdfAttributeSpec) (v : VtValue) (time : UsdTimeCode) :
    specHasValueAt (spec.setValue v time) time = true := by
  cases time with
  | Default => rfl
  | time t => simp [SdfAttributeSpec.setValue, specHasValueAt, setTimeSample_isEmpty]

theorem specValueAt_setValue (env : Env) (spec : SdfAttributeSpec) (v : VtValue)
    (time : UsdTimeCode) : specValueAt env (spec.setValue v time) time = some v := by
  cases time with
  | Default => rfl
  | time t =>
    simp [SdfAttributeSpec.setValue, specValueAt, setTimeSample_isEmpty, sampleAt,
      find_setTimeSample]

theorem propertyStack_eq_stronger_append (s : UsdStage) (path : SdfPath) (name : TfToken) :
    s.propertyStack path name = s.strongerSpecs path name ++
      (s.layers.drop s.editTarget).filterMap (fun l => l.GetAttributeSpec path name) := by
  unfold UsdStage.propertyStack UsdStage.strongerSpecs
  rw [← List.filterMap_append, List.take_append_drop]

/-- A value held on a layer stronger than the edit target is the resolved value. -/
theorem Get_of_stronger (env : Env) (s : UsdStage) (path : SdfPath) (name : TfToken)
    (time : UsdTimeCode) (σ : SdfAttributeSpec)
    (h : (s.strongerSpecs path name).find? (fun spec => specHasValueAt spec time) = some σ) :
    UsdAttribute.Get env s path name time = specValueAt env σ time := by
  unfold UsdAttribute.Get
  rw [propertyStack_eq_stronger_append, List.find?_append, h]
  rfl

/-- Reading an attribute at the time code it was just written at: the value of a stronger
layer when one holds an opinion there, the written value otherwise. -/
theorem Get_Set_eq (env : Env) (s : UsdStage) (path : SdfPath) (name : TfToken) (v : VtValue)
    (time : UsdTimeCode) (typeName : SdfValueTypeName) (l : SdfLayer)
    (hty : UsdAttribute.GetTypeName s path name = some typeName)
    (hv : v.typeName = typeName) (hl : s.layers.get? s.editTarget = some l) :
    UsdAttribute.Get env (UsdAttribute.Set s path name v time) path name time =
      match (s.strongerSpecs path name).find? (fun spec => specHasValueAt spec time) with
      | some σ => specValueAt env σ time
      | none => some v := by
  unfold UsdAttribute.Get
  rw [propertyStack_Set_eq s path name v time typeName l hty hv hl, List.find?_append]
  cases (s.strongerSpecs path name).find? (fun spec => specHasValueAt spec time) with
  | some σ => rfl
  | none => simp [List.find?, specHasValueAt_setValue, specValueAt_setValue]

/-- The value a layer holds for an attribute at a time code. -/
theorem layer_value_after_Set (env : Env) (s : UsdStage) (path : SdfPath) (name : TfToken)
    (v : VtValue) (time : UsdTimeCode) (typeName : SdfValueTypeName) (l : SdfLayer)
    (hty : UsdAttribute.GetTypeName s path name = some typeName)
    (hv : v.typeName = typeName) (hl : s.layers.get? s.editTarget = some l) :
    (((UsdAttribute.Set s path name v time).layers.get? s.editTarget).bind
      (fun l => l.GetAttributeSpec path name)).bind (fun spec => specValueAt env spec time) =
      some v := by
  rw [Set_of_match s path name v time typeName hty hv]
  simp only [modifyNth_get_eq, hl, Option.map_some', Option.some_bind,
    withValue_GetAttributeSpec_eq, specValueAt_setValue]

theorem specHasValueAt_time (spec : SdfAttributeSpec) (t : ℚ) :
    specHasValueAt spec (.time t) = (!spec.timeSamples.isEmpty || spec.defaultValue.isSome) := rfl

theorem find_bind_of_no_samples (env : Env) (t : ℚ) (L : List SdfAttributeSpec)
    (h : (match L.find? (fun spec => specHasValueAt spec (.time 0)) with
          | some spec => spec.timeSamples.length
          | none => 0) = 0) :
    (L.find? (fun spec => specHasValueAt spec (.time t))).bind
        (fun spec => specValueAt env spec (.time t)) =
      (L.find? (fun spec => specHasValueAt spec .Default)).bind
        (fun spec => specValueAt env spec .Default) := by
  induction L with
  | nil => rfl
  | cons a rest ih =>
    by_cases hP : specHasValueAt a (.time 0) = true
    · have hP' : specHasValueAt a (.time t) = true := hP
      simp only [List.find?, hP] at h
      have hs : a.timeSamples = [] := List.length_eq_zero.mp h
      have hQ : specHasValueAt a .Default = true := by
        rw [specHasValueAt_time, hs] at hP
        simpa [specHasValueAt] using hP
      simp [List.find?, hP', hQ, specValueAt, hs]
    · have hP' : ¬ specHasValueAt a (.time t) = true := hP
      have hQ : ¬ specHasValueAt a .Default = true := by
        intro hQ
        apply hP
        rw [specHasValueAt_time]
        simp only [specHasValueAt] at hQ
        simp [hQ]
      simp only [List.find?, hP] at h
      simp only [List.find?, hP', hQ]
      exact ih h

/-- An attribute whose value resolves to no time samples reads the same at a numeric time
as at the default time. -/
theorem Get_time_of_no_samples (env : Env) (s : UsdStage) (path : SdfPath) (name : TfToken)
    (t : ℚ) (h : UsdAttribute.GetNumTimeSamples s path name = 0) :
    UsdAttribute.Get env s path name (.time t) = UsdAttribute.Get env s path name .Default :=
  find_bind_of_no_samples env t _ h

/-! ### Creating attribute specs -/

theorem ensure_GetAttributeSpec_eq (l : SdfLayer) (path : SdfPath) (name : TfToken)
    (typeName : SdfValueTypeName) :
    (l.editPrimSpec path (fun ps => ps.ensureAttributeSpec name typeName)).GetAttributeSpec
        path name =
      some ((l.GetAttributeSpec path name).getD ⟨name, typeName, none, []⟩) := by
  simp only [SdfLayer.GetAttributeSpec, editPrimSpec_GetPrimAtPath_eq, Option.some_bind]
  cases hp : l.GetPrimAtPath path with
  | none => simp [SdfPrimSpec.ensureAttributeSpec, SdfPrimSpec.GetAttributeSpec]
  | some ps =>
    cases ha : ps.GetAttributeSpec name with
    | none =>
      simp only [SdfPrimSpec.GetAttributeSpec] at ha
      simp [SdfPrimSpec.ensureAttributeSpec, ha, SdfPrimSpec.GetAttributeSpec, List.find?_append]
    | some a =>
      simp only [SdfPrimSpec.GetAttributeSpec] at ha
      simp [SdfPrimSpec.ensureAttributeSpec, ha, SdfPrimSpec.GetAttributeSpec]

theorem ensure_GetAttributeSpec_ne (l : SdfLayer) (path q : SdfPath) (name other : TfToken)
    (typeName : SdfValueTypeName) (h : q ≠ path ∨ other ≠ name) :
    (l.editPrimSpec path (fun ps => ps.ensureAttributeSpec name typeName)).GetAttributeSpec
        q other = l.GetAttributeSpec q other := by
  by_cases hq : q = path
  · subst hq
    have ho : other ≠ name := h.resolve_left (fun h => h rfl)
    simp only [SdfLayer.GetAttributeSpec, editPrimSpec_GetPrimAtPath_eq, Option.some_bind]
    cases hp : l.GetPrimAtPath q with
    | none => simp [SdfPrimSpec.ensureAttributeSpec, SdfPrimSpec.GetAttributeSpec, Ne.symm ho]
    | some ps =>
      cases ha : ps.GetAttributeSpec name with
      | none =>
        simp only [SdfPrimSpec.GetAttributeSpec] at ha
        simp [SdfPrimSpec.ensureAttributeSpec, ha, SdfPrimSpec.GetAttributeSpec,
          List.find?_append, Ne.symm ho]
      | some a =>
        simp [SdfPrimSpec.ensureAttributeSpec, ha]
  · simp [SdfLayer.GetAttributeSpec, editPrimSpec_GetPrimAtPath_ne _ _ _ _ hq]

theorem propertyStack_Create_ne (s : UsdStage) (path q : SdfPath) (name other : TfToken)
    (typeName : SdfValueTypeName) (h : q ≠ path ∨ other ≠ name) :
    (s.CreateAttributeSpecForEditing path name typeName).propertyStack q other =
      s.propertyStack q other := by
  unfold UsdStage.CreateAttributeSpecForEditing UsdStage.authorAt UsdStage.propertyStack
  simp only
  cases hl : s.layers.get? s.editTarget with
  | none => rw [modifyNth_of_none _ _ _ hl]
  | some l =>
    rw [modifyNth_of_some _ _ _ l hl]
    conv => rhs; rw [split_of_some s.layers s.editTarget l hl]
    simp only [List.filterMap_append, List.filterMap_cons,
      ensure_GetAttributeSpec_ne l path q name other typeName h]

theorem propertyStack_Create_eq (s : UsdStage) (path : SdfPath) (name : TfToken)
    (typeName : SdfValueTypeName) (l : SdfLayer) (hl : s.layers.get? s.editTarget = some l) :
    (s.CreateAttributeSpecForEditing path name typeName).propertyStack path name =
      s.strongerSpecs path name ++
        ((l.GetAttributeSpec path name).getD ⟨name, typeName, none, []⟩ ::
        (s.layers.drop (s.editTarget + 1)).filterMap (fun l => l.GetAttributeSpec path name)) := by
  unfold UsdStage.CreateAttributeSpecForEditing UsdStage.authorAt UsdStage.propertyStack
    UsdStage.strongerSpecs
  simp only
  rw [modifyNth_of_some _ _ _ l hl, List.filterMap_append, List.filterMap_cons,
    ensure_GetAttributeSpec_eq]

theorem GetTypeName_Create_ne (s : UsdStage) (path q : SdfPath) (name other : TfToken)
    (typeName : SdfValueTypeName) (h : q ≠ path ∨ other ≠ name) :
    UsdAttribute.GetTypeName (UsdPrim.CreateAttribute s path name typeName) q other =
      UsdAttribute.GetTypeName s q other := by
  unfold UsdAttribute.GetTypeName UsdPrim.CreateAttribute
  rw [propertyStack_Create_ne s path q name other _ h]

theorem GetTypeName_Create_eq (s : UsdStage) (path : SdfPath) (name : TfToken)
    (typeName : SdfValueTypeName) (l : SdfLayer) (hl : s.layers.get? s.editTarget = some l) :
    UsdAttribute.GetTypeName (UsdPrim.CreateAttribute s path name typeName) path name =
      some ((UsdAttribute.GetTypeName s path name).getD typeName) := by
  unfold UsdPrim.CreateAttribute
  generalize hT : UsdAttribute.GetTypeName s path name = T
  unfold UsdAttribute.GetTypeName at hT ⊢
  rw [propertyStack_Create_eq s path name _ l hl]
  rw [propertyStack_split s path name l hl] at hT
  cases hA : s.strongerSpecs path name with
  | cons a rest => rw [hA] at hT; simp at hT; simp [← hT]
  | nil =>
    rw [hA] at hT
    cases he : l.GetAttributeSpec path name with
    | some e => rw [he] at hT; simp at hT; simp [← hT]
    | none =>
      rw [he] at hT
      simp

theorem Create_editTarget (s : UsdStage) (path : SdfPath) (name : TfToken)
    (typeName : SdfValueTypeName) :
    (UsdPrim.CreateAttribute s path name typeName).editTarget = s.editTarget := rfl

theorem Create_take (s : UsdStage) (path : SdfPath) (name : TfToken)
    (typeName : SdfValueTypeName) :
    (UsdPrim.CreateAttribute s path name typeName).layers.take s.editTarget =
      s.layers.take s.editTarget :=
  take_modifyNth _ _ _

theorem Create_length (s : UsdStage) (path : SdfPath) (name : TfToken)
    (typeName : SdfValueTypeName) :
    (UsdPrim.CreateAttribute s path name typeName).layers.length = s.layers.length :=
  modifyNth_length _ _ _

theorem GetTypeName_Create_of_some (s : UsdStage) (path q : SdfPath) (name m : TfToken)
    (typeName t : SdfValueTypeName) (h : UsdAttribute.GetTypeName s q m = some t) :
    UsdAttribute.GetTypeName (UsdPrim.CreateAttribute s path name typeName) q m = some t := by
  by_cases hne : q ≠ path ∨ m ≠ name
  · rw [GetTypeName_Create_ne s path q name m typeName hne]; exact h
  · have hq : q = path := by by_contra hq; exact hne (Or.inl hq)
    have hm : m = name := by by_contra hm; exact hne (Or.inr hm)
    subst hq; subst hm
    cases hl : s.layers.get? s.editTarget with
    | none =>
      have : UsdPrim.CreateAttribute s q m typeName = s := by
        unfold UsdPrim.CreateAttribute UsdStage.CreateAttributeSpecForEditing UsdStage.authorAt
        rw [modifyNth_of_none _ _ _ hl]
      rw [this]; exact h
    | some l => rw [GetTypeName_Create_eq s q m typeName l hl, h]; rfl

/-! ### Stages that extend a stage -/

theorem AuthoredFrom_refl (s : UsdStage) : s.AuthoredFrom s :=
  ⟨rfl, rfl, rfl, fun _ _ => rfl⟩

theorem AuthoredFrom_trans {s1 s2 s3 : UsdStage} (h23 : s3.AuthoredFrom s2)
    (h12 : s2.AuthoredFrom s1) : s3.AuthoredFrom s1 := by
  obtain ⟨a1, a2, a3, a4⟩ := h23
  obtain ⟨b1, b2, b3, b4⟩ := h12
  refine ⟨a1.trans b1, ?_, a3.trans b3, fun q m => (a4 q m).trans (b4 q m)⟩
  rw [b1] at a2
  exact a2.trans b2

theorem AuthoredFrom_Set (s : UsdStage) (path : SdfPath) (name : TfToken) (v : VtValue)
    (time : UsdTimeCode) : (UsdAttribute.Set s path name v time).AuthoredFrom s :=
  ⟨Set_editTarget s path name v time, Set_take s path name v time,
    Set_length s path name v time, fun q m => GetTypeName_Set s path q name m v time⟩

theorem AuthoredFrom_opSet (s : UsdStage) (op : UsdGeomXformOp) (v : VtValue)
    (time : UsdTimeCode) : (op.Set s v time).AuthoredFrom s := by
  cases op with
  | invalid => exact AuthoredFrom_refl s
  | op prim opType suffix isInverseOp =>
    cases isInverseOp with
    | true => exact AuthoredFrom_refl s
    | false => exact AuthoredFrom_Set s _ _ v time

theorem strongerSpecs_of_AuthoredFrom {s s' : UsdStage} (h : s'.AuthoredFrom s)
    (path : SdfPath) (name : TfToken) : s'.strongerSpecs path name = s.strongerSpecs path name := by
  unfold UsdStage.strongerSpecs
  rw [h.1, h.2.1]

theorem Extends_refl (s : UsdStage) : s.Extends s :=
  ⟨rfl, rfl, rfl, fun _ _ _ h => h⟩

theorem Extends_trans {s1 s2 s3 : UsdStage} (h23 : s3.Extends s2) (h12 : s2.Extends s1) :
    s3.Extends s1 := by
  obtain ⟨a1, a2, a3, a4⟩ := h23
  obtain ⟨b1, b2, b3, b4⟩ := h12
  refine ⟨a1.trans b1, ?_, a3.trans b3, fun q m t h => a4 q m t (b4 q m t h)⟩
  rw [b1] at a2
  exact a2.trans b2

theorem Extends_Set (s : UsdStage) (path : SdfPath) (name : TfToken) (v : VtValue)
    (time : UsdTimeCode) : (UsdAttribute.Set s path name v time).Extends s :=
  ⟨Set_editTarget s path name v time, Set_take s path name v time,
    Set_length s path name v time,
    fun q m t h => by rw [GetTypeName_Set]; exact h⟩

theorem Extends_Create (s : UsdStage) (path : SdfPath) (name : TfToken)
    (typeName : SdfValueTypeName) : (UsdPrim.CreateAttribute s path name typeName).Extends s :=
  ⟨Create_editTarget s path name typeName, Create_take s path name typeName,
    Create_length s path name typeName,
    fun q m t h => GetTypeName_Create_of_some s path q name m typeName t h⟩

theorem IsValid_iff (s : UsdStage) (path : SdfPath) (name : TfToken) :
    UsdAttribute.IsValid s path name = (UsdAttribute.GetTypeName s path name).isSome := by
  unfold UsdAttribute.IsValid UsdAttribute.GetTypeName
  cases s.propertyStack path name <;> rfl

theorem IsValid_of_Extends {s s' : UsdStage} (h : s'.Extends s) (path : SdfPath)
    (name : TfToken) (hv : UsdAttribute.IsValid s path name = true) :
    UsdAttribute.IsValid s' path name = true := by
  rw [IsValid_iff] at hv ⊢
  cases ht : UsdAttribute.GetTypeName s path name with
  | none => rw [ht] at hv; cases hv
  | some t => rw [h.2.2.2 path name t ht]; rfl

theorem strongerSpecs_of_Extends {s s' : UsdStage} (h : s'.Extends s) (path : SdfPath)
    (name : TfToken) : s'.strongerSpecs path name = s.strongerSpecs path name := by
  unfold UsdStage.strongerSpecs
  rw [h.1, h.2.1]

theorem editLayer_of_Extends {s s' : UsdStage} (h : s'.Extends s) (l : SdfLayer)
    (hl : s.layers.get? s.editTarget = some l) :
    ∃ l', s'.layers.get? s'.editTarget = some l' := by
  have h1 : s.editTarget < s.layers.length := by
    rcases Nat.lt_or_ge s.editTarget s.layers.length with hlt | hge
    · exact hlt
    · rw [List.get?_eq_none.mpr hge] at hl
      cases hl
  have h2 : s'.editTarget < s'.layers.length := by rw [h.1, h.2.2.1]; exact h1
  exact ⟨s'.layers.get ⟨_, h2⟩, List.get?_eq_get h2⟩

/-! ### The ordered ops -/

theorem opsResolve_of_Extends {s s' : UsdStage} (h : s'.Extends s) (prim : SdfPath)
    (ops : List UsdGeomXformOp) (ho : opsResolve s prim ops) : opsResolve s' prim ops := by
  intro op hop
  obtain ⟨ty, suf, inv, he, hv⟩ := ho op hop
  exact ⟨ty, suf, inv, he, IsValid_of_Extends h prim _ hv⟩

theorem orderedXformOpsFrom_resolve (s : UsdStage) (prim : SdfPath) (ts : List TfToken)
    (acc : List UsdGeomXformOp × Bool) (h : opsResolve s prim acc.1) :
    opsResolve s prim (orderedXformOpsFrom s prim ts acc).1 := by
  induction ts generalizing acc with
  | nil => exact h
  | cons tok rest ih =>
    obtain ⟨ops, reset⟩ := acc
    cases tok with
    | xformOpOrder => exact ih _ h
    | resetXformStack =>
      exact ih ([], true) (fun op hop => by cases hop)
    | other text => exact ih _ h
    | xformOp ty suf inv =>
      simp only [orderedXformOpsFrom]
      split
      · rename_i hv
        apply ih
        intro op hop
        simp only [List.mem_append, List.mem_singleton] at hop
        cases hop with
        | inl hin => exact h op hin
        | inr heq => exact ⟨ty, suf, inv, heq, hv⟩
      · exact ih _ h

theorem GetOrderedXformOps_resolve (env : Env) (s : UsdStage) (prim : SdfPath) :
    opsResolve s prim (UsdGeomXformable.GetOrderedXformOps env s prim).1 := by
  unfold UsdGeomXformable.GetOrderedXformOps
  split
  · exact orderedXformOpsFrom_resolve s prim _ _ (fun op hop => by cases hop)
  · exact fun op hop => by cases hop

theorem orderedXformOpsFrom_names (s : UsdStage) (prim : SdfPath) (ops : List UsdGeomXformOp)
    (acc : List UsdGeomXformOp) (reset : Bool) (h : opsResolve s prim ops) :
    orderedXformOpsFrom s prim (ops.map UsdGeomXformOp.GetOpName) (acc, reset) =
      (acc ++ ops, reset) := by
  induction ops generalizing acc with
  | nil => simp [orderedXformOpsFrom]
  | cons op rest ih =>
    obtain ⟨ty, suf, inv, he, hv⟩ := h op (List.mem_cons_self _ _)
    subst he
    simp only [List.map_cons, UsdGeomXformOp.GetOpName, orderedXformOpsFrom, hv, if_true]
    rw [ih _ (fun o ho => h o (List.mem_cons_of_mem _ ho))]
    simp

theorem opsResolve_all_GetPrim (s : UsdStage) (prim : SdfPath) (ops : List UsdGeomXformOp)
    (h : opsResolve s prim ops) :
    ops.all (fun op => decide (op.GetPrim = some prim)) = true := by
  rw [List.all_eq_true]
  intro op hop
  obtain ⟨ty, suf, inv, he, _⟩ := h op hop
  subst he
  simp [UsdGeomXformOp.GetPrim]

theorem orderedXformOpsFrom_head (s : UsdStage) (prim : SdfPath) (ops : List UsdGeomXformOp)
    (reset : Bool)
    (hv : UsdAttribute.IsValid s prim (.xformOp .TypeTranslate "" false) = true)
    (hres : opsResolve s prim ops) :
    orderedXformOpsFrom s prim
      ((if reset then [TfToken.resetXformStack] else []) ++
        (UsdGeomXformOp.op prim .TypeTranslate "" false :: ops).map UsdGeomXformOp.GetOpName)
      ([], false) = (.op prim .TypeTranslate "" false :: ops, reset) := by
  cases reset with
  | true =>
    simp only [if_true, List.singleton_append, List.map_cons, UsdGeomXformOp.GetOpName,
      orderedXformOpsFrom, hv]
    rw [orderedXformOpsFrom_names _ prim ops _ true hres]
    rfl
  | false =>
    simp only [Bool.false_eq_true, if_false, List.nil_append, List.map_cons,
      UsdGeomXformOp.GetOpName, orderedXformOpsFrom, hv, if_true]
    rw [orderedXformOpsFrom_names _ prim ops _ false hres]
    rfl

theorem authorXformOpOrder_spec (env : Env) (s : UsdStage) (prim : SdfPath) (ts : List TfToken)
    (l : SdfLayer) (hl : s.layers.get? s.editTarget = some l)
    (hord : UsdAttribute.GetTypeName s prim .xformOpOrder = none ∨
      UsdAttribute.GetTypeName s prim .xformOpOrder = some .tokenArray)
    (hmask : (s.strongerSpecs prim .xformOpOrder).find?
      (fun spec => specHasValueAt spec .Default) = none) :
    UsdGeomXformable.GetXformOpOrderValue env
        (UsdGeomXformable.authorXformOpOrder s prim ts) prim = some ts ∧
    (UsdGeomXformable.authorXformOpOrder s prim ts).Extends s ∧
    UsdAttribute.GetTypeName (UsdGeomXformable.authorXformOpOrder s prim ts) prim .xformOpOrder =
      some .tokenArray := by
  have hE := Extends_Create s prim .xformOpOrder .tokenArray
  have hT : UsdAttribute.GetTypeName (UsdPrim.CreateAttribute s prim .xformOpOrder .tokenArray)
      prim .xformOpOrder = some .tokenArray := by
    rw [GetTypeName_Create_eq s prim .xformOpOrder .tokenArray l hl]
    cases hord with
    | inl h => rw [h]; rfl
    | inr h => rw [h]; rfl
  obtain ⟨l', hl'⟩ := editLayer_of_Extends hE l hl
  refine ⟨?_, Extends_trans (Extends_Set _ _ _ _ _) hE, ?_⟩
  · unfold UsdGeomXformable.GetXformOpOrderValue UsdGeomXformable.authorXformOpOrder
    rw [Get_Set_eq env _ prim .xformOpOrder (.tokens ts) .Default .tokenArray l' hT rfl hl',
      strongerSpecs_of_Extends hE, hmask]
  · unfold UsdGeomXformable.authorXformOpOrder
    rw [GetTypeName_Set]
    exact hT

theorem AddTranslateOp_spec (env : Env) (s : UsdStage) (prim : SdfPath) (l : SdfLayer)
    (hl : s.layers.get? s.editTarget = some l)
    (hnew : TfToken.xformOp .TypeTranslate "" false ∉
      (UsdGeomXformable.GetXformOpOrderValue env s prim).getD []) :
    ∃ s1 : UsdStage, s1.Extends s ∧
      UsdAttribute.IsValid s1 prim (.xformOp .TypeTranslate "" false) = true ∧
      UsdAttribute.GetTypeName s1 prim .xformOpOrder =
        UsdAttribute.GetTypeName s prim .xformOpOrder ∧
      UsdGeomXformable.AddTranslateOp env s prim .PrecisionDouble =
        (.op prim .TypeTranslate "" false,
          UsdGeomXformable.authorXformOpOrder s1 prim
            ((UsdGeomXformable.GetXformOpOrderValue env s prim).getD [] ++
              [TfToken.xformOp .TypeTranslate "" false])) := by
  by_cases hv : UsdAttribute.IsValid s prim (.xformOp .TypeTranslate "" false) = true
  · refine ⟨s, Extends_refl s, hv, rfl, ?_⟩
    simp [UsdGeomXformable.AddTranslateOp, UsdGeomXformable.AddXformOp, hnew, hv]
  · have hv1 : UsdAttribute.IsValid
        (UsdPrim.CreateAttribute s prim (.xformOp .TypeTranslate "" false)
          (GetValueTypeName .TypeTranslate .PrecisionDouble))
        prim (.xformOp .TypeTranslate "" false) = true := by
      rw [IsValid_iff, GetTypeName_Create_eq s prim _ _ l hl]
      rfl
    refine ⟨_, Extends_Create s prim (.xformOp .TypeTranslate "" false)
      (GetValueTypeName .TypeTranslate .PrecisionDouble), hv1, ?_, ?_⟩
    · exact GetTypeName_Create_ne s prim prim _ _ _ (Or.inr (by simp))
    · simp [UsdGeomXformable.AddTranslateOp, UsdGeomXformable.AddXformOp, hnew, hv, hv1]

/-! ### The constructor -/

theorem create_bound (env : Env) (s : UsdStage) (prim : SdfPath) (x y z : ℚ)
    (tc0 : UsdTimeCode) (proc : TransformManipulator)
    (hbind : TransformManipulator.create env s prim tc0 = some proc) :
    UsdTranslateUndoableCommand.create env s prim x y z tc0 =
      ({ fPrim := prim, fPrevValue := proc.Translation env s, fNewValue := ⟨x, y, z⟩,
         fPath := prim,
         fTimeCode := if !ExistingOpHasSamples s proc.op then UsdTimeCode.Default else tc0,
         fOp := proc.op, fEditTarget := none,
         fCreatedOp := false, fCreatedOrderedAttr := false }, s) := by
  simp [UsdTranslateUndoableCommand.create, hbind]

theorem create_timeCode (env : Env) (s : UsdStage) (prim : SdfPath) (tc0 : UsdTimeCode)
    (proc : TransformManipulator)
    (hbind : TransformManipulator.create env s prim tc0 = some proc) :
    proc.timeCode = tc0 ∧ proc.prim = prim := by
  unfold TransformManipulator.create at hbind
  simp only at hbind
  split at hbind
  · cases hbind; exact ⟨rfl, rfl⟩
  · cases hbind

theorem createdOrderedAttr_eq (s : UsdStage) (prim : SdfPath) :
    (if UsdAttribute.IsValid s prim .xformOpOrder
      then !UsdAttribute.HasAuthoredValue s prim .xformOpOrder else true) =
      !UsdAttribute.HasAuthoredValue s prim .xformOpOrder := by
  by_cases h : UsdAttribute.IsValid s prim .xformOpOrder = true
  · simp [h]
  · have : s.propertyStack prim .xformOpOrder = [] := by
      unfold UsdAttribute.IsValid at h
      cases hp : s.propertyStack prim .xformOpOrder with
      | nil => rfl
      | cons a rest => rw [hp] at h; simp at h
    simp [h, UsdAttribute.HasAuthoredValue, this]

/-! ### Method `translate` -/

theorem AuthoredFrom_Translate (env : Env) (s : UsdStage) (proc : TransformManipulator)
    (d : GfVec3d) (space : Option Space) : (proc.Translate env s d space).AuthoredFrom s := by
  unfold TransformManipulator.Translate TransformManipulator.writeTranslation
  split
  · exact AuthoredFrom_opSet s _ _ _
  · split
    · exact AuthoredFrom_opSet s _ _ _
    · exact AuthoredFrom_refl s
  · exact AuthoredFrom_refl s

theorem AuthoredFrom_translate (env : Env) (space : Space) (s : UsdStage)
    (cmd : UsdTranslateUndoableCommand) (x y z : ℚ) :
    (cmd.translate env space s x y z).2.2.AuthoredFrom s := by
  unfold UsdTranslateUndoableCommand.translate
  simp only
  split
  · exact AuthoredFrom_refl s
  · cases space <;> dsimp only <;> exact AuthoredFrom_Translate env s _ _ _

theorem translate_cmd (env : Env) (space : Space) (s : UsdStage)
    (cmd : UsdTranslateUndoableCommand) (x y z : ℚ) :
    (cmd.translate env space s x y z).2.1 = { cmd with fNewValue := ⟨x, y, z⟩ } := by
  unfold UsdTranslateUndoableCommand.translate
  simp only
  split
  · rfl
  · cases space <;> rfl

/-- What `undo` does for a command bound to a translate op whose net change exceeds the
tolerance: one `Set` of the previous value, in the precision of the op. -/
theorem undo_bound_translate (env : Env) (s : UsdStage) (cmd : UsdTranslateUndoableCommand)
    (hb : cmd.fCreatedOp = false)
    (hc : GfIsClose cmd.fNewValue cmd.fPrevValue undoTolerance = false)
    (ht : cmd.fOp.GetOpType = some .TypeTranslate) :
    cmd.undo env s =
      cmd.fOp.Set s (.vec3 (cmd.fOp.GetPrecision s) cmd.fPrevValue) cmd.fTimeCode := by
  unfold UsdTranslateUndoableCommand.undo
  simp only [hb, hc, ht]
  cases cmd.fOp.GetPrecision s <;> rfl

theorem Get_at_command_time (env : Env) (s : UsdStage) (prim : SdfPath) (opType : XformOpType)
    (suffix : String) (inv : Bool) (tc0 : UsdTimeCode) :
    UsdAttribute.Get env s prim (.xformOp opType suffix false)
        (if (!ExistingOpHasSamples s (.op prim opType suffix inv)) = true
          then UsdTimeCode.Default else tc0) =
      UsdAttribute.Get env s prim (.xformOp opType suffix false) tc0 := by
  by_cases h : ExistingOpHasSamples s (.op prim opType suffix inv) = true
  · simp [h]
  · have h0 : UsdAttribute.GetNumTimeSamples s prim (.xformOp opType suffix false) = 0 := by
      simpa [ExistingOpHasSamples, UsdGeomXformOp.GetNumTimeSamples] using h
    simp only [h, Bool.not_false, if_true]
    cases tc0 with
    | Default => simp
    | time t => simpa using (Get_time_of_no_samples env s prim _ t h0).symm

/-- After any values authored on the edit target since construction, `undo` of a bound
command whose net change exceeds the tolerance leaves the translate op with the value read at
construction. -/
theorem undo_restores_previous (env : Env) (s s2 : UsdStage) (proc : TransformManipulator)
    (prim : SdfPath) (suffix : String) (pr : Precision) (tc0 : UsdTimeCode) (newV : GfVec3d)
    (hA : s2.AuthoredFrom s)
    (hop : proc.op = .op prim .TypeTranslate suffix false)
    (htc : proc.timeCode = tc0)
    (hty : UsdAttribute.GetTypeName s prim (.xformOp .TypeTranslate suffix false) =
      some (.vec3 pr))
    (hE : s.editTarget < s.layers.length)
    (hfar : GfIsClose newV (proc.Translation env s) undoTolerance = false) :
    TransformManipulator.Translation env
      (UsdTranslateUndoableCommand.undo env s2
        { fPrim := prim, fPrevValue := proc.Translation env s, fNewValue := newV, fPath := prim,
          fTimeCode := if (!ExistingOpHasSamples s proc.op) = true
            then UsdTimeCode.Default else tc0,
          fOp := proc.op, fEditTarget := none, fCreatedOp := false,
          fCreatedOrderedAttr := false })
      ⟨prim, proc.ops, proc.op,
        if (!ExistingOpHasSamples s proc.op) = true then UsdTimeCode.Default else tc0⟩ =
    proc.Translation env s := by
  have hty2 : UsdAttribute.GetTypeName s2 prim (.xformOp .TypeTranslate suffix false) =
      some (.vec3 pr) := by rw [hA.2.2.2]; exact hty
  obtain ⟨l, hl⟩ : ∃ l, s2.layers.get? s2.editTarget = some l := by
    have : s2.editTarget < s2.layers.length := by rw [hA.1, hA.2.2.1]; exact hE
    exact ⟨s2.layers.get ⟨_, this⟩, List.get?_eq_get this⟩
  have hu := undo_bound_translate env s2
    { fPrim := prim, fPrevValue := proc.Translation env s, fNewValue := newV, fPath := prim,
      fTimeCode := if (!ExistingOpHasSamples s proc.op) = true
        then UsdTimeCode.Default else tc0,
      fOp := proc.op, fEditTarget := none, fCreatedOp := false,
      fCreatedOrderedAttr := false } rfl hfar (by simp [hop, UsdGeomXformOp.GetOpType])
  rw [hu]
  simp only [hop, UsdGeomXformOp.Set, UsdGeomXformOp.GetPrecision, hty2,
    GetPrecisionFromValueTypeName, Bool.false_eq_true, if_false]
  have hprev : proc.Translation env s =
      decodeTranslation
        (UsdAttribute.Get env s prim (.xformOp .TypeTranslate suffix false) tc0) := by
    simp only [TransformManipulator.Translation, hop, htc, UsdGeomXformOp.Get]
  generalize hp : proc.Translation env s = prev at hprev ⊢
  simp only [TransformManipulator.Translation, UsdGeomXformOp.Get]
  rw [Get_Set_eq env s2 prim _ (.vec3 pr prev) _ (.vec3 pr) l hty2 rfl hl,
    strongerSpecs_of_AuthoredFrom hA]
  cases hσ : (s.strongerSpecs prim (.xformOp .TypeTranslate suffix false)).find?
      (fun spec => specHasValueAt spec
        (if (!ExistingOpHasSamples s (.op prim .TypeTranslate suffix false)) = true
          then UsdTimeCode.Default else tc0)) with
  | some σ =>
    simp only
    rw [← Get_of_stronger env s prim _ _ σ hσ, Get_at_command_time, ← hprev]
  | none => rfl

/-! ### C1: round trip on the creation path -/

/-- C1 (creation round trip), evaluated where it fails: `/p` is defined in a weaker layer with
`xformOpOrder = ["xformOp:rotateXYZ"]` and the edit target is a stronger layer without any
spec.  Construction takes the creation branch, `translate(1, 2, 3)` succeeds, and `undo`
leaves on the edit target an `over` for `/p` with an authored `xformOpOrder`, which was not
there before: the authored scene description is not the one before construction. -/
theorem creation_round_trip_leaves_order_override :
    (UsdTranslateUndoableCommand.create sceneEnv overStage "/p" 0 0 0 .Default).1.fCreatedOp
      = true ∧
    (UsdTranslateUndoableCommand.translate sceneEnv .kTransform
      (UsdTranslateUndoableCommand.create sceneEnv overStage "/p" 0 0 0 .Default).2
      (UsdTranslateUndoableCommand.create sceneEnv overStage "/p" 0 0 0 .Default).1 1 2 3).1
      = true ∧
    UsdTranslateUndoableCommand.undo sceneEnv
      (UsdTranslateUndoableCommand.translate sceneEnv .kTransform
        (UsdTranslateUndoableCommand.create sceneEnv overStage "/p" 0 0 0 .Default).2
        (UsdTranslateUndoableCommand.create sceneEnv overStage "/p" 0 0 0 .Default).1 1 2 3).2.2
      (UsdTranslateUndoableCommand.translate sceneEnv .kTransform
        (UsdTranslateUndoableCommand.create sceneEnv overStage "/p" 0 0 0 .Default).2
        (UsdTranslateUndoableCommand.create sceneEnv overStage "/p" 0 0 0 .Default).1 1 2 3).2.1
      = ⟨[⟨[("/p", ⟨[rotateOrderSpec]⟩)]⟩, rotateLayer], 0⟩ ∧
    (⟨[⟨[("/p", ⟨[rotateOrderSpec]⟩)]⟩, rotateLayer], 0⟩ : UsdStage) ≠ overStage := by
  decide!

/-- The creation round trip on a single layer in which `/p` already has an attribute
`xformOp:translate = (5, 5, 5)` that `xformOpOrder` does not list: construction takes the
creation branch and reuses the attribute, and `undo` removes it together with its value. -/
theorem creation_round_trip_drops_unlisted_attribute :
    (UsdTranslateUndoableCommand.create sceneEnv unlistedStage "/p" 0 0 0 .Default).1.fCreatedOp
      = true ∧
    UsdTranslateUndoableCommand.undo sceneEnv
      (UsdTranslateUndoableCommand.translate sceneEnv .kTransform
        (UsdTranslateUndoableCommand.create sceneEnv unlistedStage "/p" 0 0 0 .Default).2
        (UsdTranslateUndoableCommand.create sceneEnv unlistedStage "/p" 0 0 0 .Default).1
        1 2 3).2.2
      (UsdTranslateUndoableCommand.translate sceneEnv .kTransform
        (UsdTranslateUndoableCommand.create sceneEnv unlistedStage "/p" 0 0 0 .Default).2
        (UsdTranslateUndoableCommand.create sceneEnv unlistedStage "/p" 0 0 0 .Default).1
        1 2 3).2.1
      = bareStage ∧
    bareStage ≠ unlistedStage := by
  decide!

/-- The scenario of the specification: `/p` has no xform ops and no order attribute;
construction, `translate(1, 2, 3)` and `undo` give back the scene before construction. -/
theorem creation_round_trip_on_bare_prim :
    UsdTranslateUndoableCommand.undo sceneEnv
      (UsdTranslateUndoableCommand.translate sceneEnv .kTransform
        (UsdTranslateUndoableCommand.create sceneEnv bareStage "/p" 0 0 0 .Default).2
        (UsdTranslateUndoableCommand.create sceneEnv bareStage "/p" 0 0 0 .Default).1 1 2 3).2.2
      (UsdTranslateUndoableCommand.translate sceneEnv .kTransform
        (UsdTranslateUndoableCommand.create sceneEnv bareStage "/p" 0 0 0 .Default).2
        (UsdTranslateUndoableCommand.create sceneEnv bareStage "/p" 0 0 0 .Default).1 1 2 3).2.1
      = bareStage := by
  decide!

/-- The round trip on a prim whose order attribute is authored on the edit target and merely
extended: construction, `translate(1, 2, 3)` and `undo` give back the scene before
construction. -/
theorem creation_round_trip_on_ordered_prim :
    (UsdTranslateUndoableCommand.create sceneEnv twoLayerStage "/p" 0 0 0
      .Default).1.fCreatedOrderedAttr = false ∧
    UsdTranslateUndoableCommand.undo sceneEnv
      (UsdTranslateUndoableCommand.translate sceneEnv .kTransform
        (UsdTranslateUndoableCommand.create sceneEnv twoLayerStage "/p" 0 0 0 .Default).2
        (UsdTranslateUndoableCommand.create sceneEnv twoLayerStage "/p" 0 0 0 .Default).1
        1 2 3).2.2
      (UsdTranslateUndoableCommand.translate sceneEnv .kTransform
        (UsdTranslateUndoableCommand.create sceneEnv twoLayerStage "/p" 0 0 0 .Default).2
        (UsdTranslateUndoableCommand.create sceneEnv twoLayerStage "/p" 0 0 0 .Default).1
        1 2 3).2.1
      = twoLayerStage := by
  decide!

/-! ### C2: round trip on the bound path -/

/-- C2, amended (round trip on the bound path): for a node whose bound operation is a plain
translate op declared as a 3-vector, on a stage with a valid edit target, constructing the
command, calling `translate(v1)` and `translate(v2)` in any manipulator spaces and then `undo()`
leaves the value of the operation at the time code of the command equal to the value `p` read
at construction, provided `v2` is not within the tolerance of `p` (when it is, `undo()` writes
nothing). -/
theorem bound_round_trip (env : Env) (space1 space2 : Space) (s : UsdStage) (prim : SdfPath)
    (x y z : ℚ) (tc0 : UsdTimeCode) (v1 v2 : GfVec3d) (proc : TransformManipulator)
    (suffix : String) (pr : Precision)
    (hbind : TransformManipulator.create env s prim tc0 = some proc)
    (hop : proc.op = .op prim .TypeTranslate suffix false)
    (hty : UsdAttribute.GetTypeName s prim (.xformOp .TypeTranslate suffix false) =
      some (.vec3 pr))
    (hE : s.editTarget < s.layers.length)
    (hfar : GfIsClose v2 (proc.Translation env s) undoTolerance = false) :
    TransformManipulator.Translation env
      (UsdTranslateUndoableCommand.undo env
        (UsdTranslateUndoableCommand.translate env space2
          (UsdTranslateUndoableCommand.translate env space1
            (UsdTranslateUndoableCommand.create env s prim x y z tc0).2
            (UsdTranslateUndoableCommand.create env s prim x y z tc0).1 v1.x v1.y v1.z).2.2
          (UsdTranslateUndoableCommand.translate env space1
            (UsdTranslateUndoableCommand.create env s prim x y z tc0).2
            (UsdTranslateUndoableCommand.create env s prim x y z tc0).1 v1.x v1.y v1.z).2.1
          v2.x v2.y v2.z).2.2
        (UsdTranslateUndoableCommand.translate env space2
          (UsdTranslateUndoableCommand.translate env space1
            (UsdTranslateUndoableCommand.create env s prim x y z tc0).2
            (UsdTranslateUndoableCommand.create env s prim x y z tc0).1 v1.x v1.y v1.z).2.2
          (UsdTranslateUndoableCommand.translate env space1
            (UsdTranslateUndoableCommand.create env s prim x y z tc0).2
            (UsdTranslateUndoableCommand.create env s prim x y z tc0).1 v1.x v1.y v1.z).2.1
          v2.x v2.y v2.z).2.1)
      ⟨prim, proc.ops, proc.op,
        (UsdTranslateUndoableCommand.create env s prim x y z tc0).1.fTimeCode⟩ =
    proc.Translation env s := by
  rw [create_bound env s prim x y z tc0 proc hbind]
  simp only [translate_cmd]
  exact undo_restores_previous env s _ proc prim suffix pr tc0 ⟨v2.x, v2.y, v2.z⟩
    (AuthoredFrom_trans (AuthoredFrom_translate env space2 _ _ _ _ _)
      (AuthoredFrom_translate env space1 _ _ _ _ _))
    hop (create_timeCode env s prim tc0 proc hbind).1 hty hE hfar

/-- The bound round trip at a concrete input: a single-precision translate op holding
`(1, 2, 3)`, moved to `(4, 5, 6)` and to `(7, 8, 9)`. -/
theorem bound_round_trip_witness :
    TransformManipulator.Translation sceneEnv
      (UsdTranslateUndoableCommand.undo sceneEnv
        (UsdTranslateUndoableCommand.translate sceneEnv .kPreTransform
          (UsdTranslateUndoableCommand.translate sceneEnv .kTransform
            (UsdTranslateUndoableCommand.create sceneEnv
              (translateStage .PrecisionFloat ⟨1, 2, 3⟩) "/p" 0 0 0 .Default).2
            (UsdTranslateUndoableCommand.create sceneEnv
              (translateStage .PrecisionFloat ⟨1, 2, 3⟩) "/p" 0 0 0 .Default).1 4 5 6).2.2
          (UsdTranslateUndoableCommand.translate sceneEnv .kTransform
            (UsdTranslateUndoableCommand.create sceneEnv
              (translateStage .PrecisionFloat ⟨1, 2, 3⟩) "/p" 0 0 0 .Default).2
            (UsdTranslateUndoableCommand.create sceneEnv
              (translateStage .PrecisionFloat ⟨1, 2, 3⟩) "/p" 0 0 0 .Default).1 4 5 6).2.1
          7 8 9).2.2
        (UsdTranslateUndoableCommand.translate sceneEnv .kPreTransform
          (UsdTranslateUndoableCommand.translate sceneEnv .kTransform
            (UsdTranslateUndoableCommand.create sceneEnv
              (translateStage .PrecisionFloat ⟨1, 2, 3⟩) "/p" 0 0 0 .Default).2
            (UsdTranslateUndoableCommand.create sceneEnv
              (translateStage .PrecisionFloat ⟨1, 2, 3⟩) "/p" 0 0 0 .Default).1 4 5 6).2.2
          (UsdTranslateUndoableCommand.translate sceneEnv .kTransform
            (UsdTranslateUndoableCommand.create sceneEnv
              (translateStage .PrecisionFloat ⟨1, 2, 3⟩) "/p" 0 0 0 .Default).2
            (UsdTranslateUndoableCommand.create sceneEnv
              (translateStage .PrecisionFloat ⟨1, 2, 3⟩) "/p" 0 0 0 .Default).1 4 5 6).2.1
          7 8 9).2.1)
      ⟨"/p", translateProc.ops, translateProc.op,
        (UsdTranslateUndoableCommand.create sceneEnv
          (translateStage .PrecisionFloat ⟨1, 2, 3⟩) "/p" 0 0 0 .Default).1.fTimeCode⟩ =
    translateProc.Translation sceneEnv (translateStage .PrecisionFloat ⟨1, 2, 3⟩) :=
  bound_round_trip sceneEnv .kTransform .kPreTransform (translateStage .PrecisionFloat ⟨1, 2, 3⟩)
    "/p" 0 0 0 .Default ⟨4, 5, 6⟩ ⟨7, 8, 9⟩ translateProc "" .PrecisionFloat
    (by decide!) (by decide!) (by decide!)
    (by decide!) (by decide!)

/-- C2 as stated fails: `/p` has a translate op holding `p = (0, 0, 0)`; after construction,
`translate(1, 0, 0)`, `translate(1e-6, 0, 0)` in `kTransform` space and `undo()`, the op holds
`(1e-6, 0, 0)`, the value written by the second `translate`, and not `p`: the net change is
within the tolerance, so `undo()` wrote nothing. -/
theorem bound_round_trip_within_tolerance :
    (UsdTranslateUndoableCommand.create sceneEnv (translateStage .PrecisionDouble ⟨0, 0, 0⟩)
      "/p" 0 0 0 .Default).1.fPrevValue = ⟨0, 0, 0⟩ ∧
    TransformManipulator.Translation sceneEnv
      (UsdTranslateUndoableCommand.undo sceneEnv
        (UsdTranslateUndoableCommand.translate sceneEnv .kTransform
          (UsdTranslateUndoableCommand.translate sceneEnv .kTransform
            (UsdTranslateUndoableCommand.create sceneEnv
              (translateStage .PrecisionDouble ⟨0, 0, 0⟩) "/p" 0 0 0 .Default).2
            (UsdTranslateUndoableCommand.create sceneEnv
              (translateStage .PrecisionDouble ⟨0, 0, 0⟩) "/p" 0 0 0 .Default).1 1 0 0).2.2
          (UsdTranslateUndoableCommand.translate sceneEnv .kTransform
            (UsdTranslateUndoableCommand.create sceneEnv
              (translateStage .PrecisionDouble ⟨0, 0, 0⟩) "/p" 0 0 0 .Default).2
            (UsdTranslateUndoableCommand.create sceneEnv
              (translateStage .PrecisionDouble ⟨0, 0, 0⟩) "/p" 0 0 0 .Default).1 1 0 0).2.1
          (1 / 1000000) 0 0).2.2
        (UsdTranslateUndoableCommand.translate sceneEnv .kTransform
          (UsdTranslateUndoableCommand.translate sceneEnv .kTransform
            (UsdTranslateUndoableCommand.create sceneEnv
              (translateStage .PrecisionDouble ⟨0, 0, 0⟩) "/p" 0 0 0 .Default).2
            (UsdTranslateUndoableCommand.create sceneEnv
              (translateStage .PrecisionDouble ⟨0, 0, 0⟩) "/p" 0 0 0 .Default).1 1 0 0).2.2
          (UsdTranslateUndoableCommand.translate sceneEnv .kTransform
            (UsdTranslateUndoableCommand.create sceneEnv
              (translateStage .PrecisionDouble ⟨0, 0, 0⟩) "/p" 0 0 0 .Default).2
            (UsdTranslateUndoableCommand.create sceneEnv
              (translateStage .PrecisionDouble ⟨0, 0, 0⟩) "/p" 0 0 0 .Default).1 1 0 0).2.1
          (1 / 1000000) 0 0).2.1)
      translateProc = ⟨1 / 1000000, 0, 0⟩ ∧
    (⟨1 / 1000000, 0, 0⟩ : GfVec3d) ≠ ⟨0, 0, 0⟩ := by
  decide!

/-! ### C3: a failed apply -/

/-- C3, amended (a failed apply): if `translate(x, y, z)` returns false, every member of the
command other than `fNewValue` is as it was before the call, and `fNewValue` is `(x, y, z)`:
it is assigned before the `try` block, whatever the outcome. -/
theorem translate_failure_keeps_all_but_new_value (env : Env) (space : Space) (s : UsdStage)
    (cmd : UsdTranslateUndoableCommand) (x y z : ℚ)
    (_hfail : (cmd.translate env space s x y z).1 = false) :
    (cmd.translate env space s x y z).2.1 = { cmd with fNewValue := ⟨x, y, z⟩ } :=
  translate_cmd env space s cmd x y z

/-- A failed `translate` at a concrete input: a bound command on a prim that has no op. -/
theorem translate_failure_witness :
    (UsdTranslateUndoableCommand.translate sceneEnv .kTransform bareStage
      (boundCommand ⟨0, 0, 0⟩ ⟨0, 0, 0⟩) 1 2 3).2.1 =
      { boundCommand ⟨0, 0, 0⟩ ⟨0, 0, 0⟩ with fNewValue := ⟨1, 2, 3⟩ } :=
  translate_failure_keeps_all_but_new_value sceneEnv .kTransform bareStage
    (boundCommand ⟨0, 0, 0⟩ ⟨0, 0, 0⟩) 1 2 3 (by decide!)

/-- C3 as stated fails: a command created on a prim without ops and undone; the next
`translate(1, 2, 3)` cannot bind and returns false, and the command is not the one before the
call: `fNewValue` went from `(0, 0, 0)` to `(1, 2, 3)`. -/
theorem translate_failure_updates_new_value :
    (UsdTranslateUndoableCommand.translate sceneEnv .kTransform
      (UsdTranslateUndoableCommand.undo sceneEnv
        (UsdTranslateUndoableCommand.create sceneEnv bareStage "/p" 0 0 0 .Default).2
        (UsdTranslateUndoableCommand.create sceneEnv bareStage "/p" 0 0 0 .Default).1)
      (UsdTranslateUndoableCommand.create sceneEnv bareStage "/p" 0 0 0 .Default).1 1 2 3).1
      = false ∧
    (UsdTranslateUndoableCommand.translate sceneEnv .kTransform
      (UsdTranslateUndoableCommand.undo sceneEnv
        (UsdTranslateUndoableCommand.create sceneEnv bareStage "/p" 0 0 0 .Default).2
        (UsdTranslateUndoableCommand.create sceneEnv bareStage "/p" 0 0 0 .Default).1)
      (UsdTranslateUndoableCommand.create sceneEnv bareStage "/p" 0 0 0 .Default).1 1 2 3).2.1
      ≠ (UsdTranslateUndoableCommand.create sceneEnv bareStage "/p" 0 0 0 .Default).1 ∧
    (UsdTranslateUndoableCommand.create sceneEnv bareStage "/p" 0 0 0 .Default).1.fNewValue
      = ⟨0, 0, 0⟩ ∧
    (UsdTranslateUndoableCommand.translate sceneEnv .kTransform
      (UsdTranslateUndoableCommand.undo sceneEnv
        (UsdTranslateUndoableCommand.create sceneEnv bareStage "/p" 0 0 0 .Default).2
        (UsdTranslateUndoableCommand.create sceneEnv bareStage "/p" 0 0 0 .Default).1)
      (UsdTranslateUndoableCommand.create sceneEnv bareStage "/p" 0 0 0 .Default).1
      1 2 3).2.1.fNewValue = ⟨1, 2, 3⟩ := by
  decide!

/-! ### C4: the spaces at the identity frame -/

/-- C5, amended (tolerance no-op): for a command bound to an existing operation, `undo()`
writes nothing and leaves the scene unchanged whenever the squared length of
`currentValue - previousValue` is at most the square of the tolerance, the single-precision
`1e-5f`; so it does for a delta of `1e-6` in each component; and for a delta of `1e-4` in each
component of a translate op it writes `previousValue` back, in the precision of the op. -/
theorem undo_tolerance (env : Env) (s : UsdStage) (cmd : UsdTranslateUndoableCommand)
    (hb : cmd.fCreatedOp = false) :
    ((cmd.fNewValue.sub cmd.fPrevValue).GetLengthSq ≤ undoTolerance * undoTolerance →
      cmd.undo env s = s) ∧
    (cmd.fNewValue.sub cmd.fPrevValue = ⟨1 / 1000000, 1 / 1000000, 1 / 1000000⟩ →
      cmd.undo env s = s) ∧
    (cmd.fNewValue.sub cmd.fPrevValue = ⟨1 / 10000, 1 / 10000, 1 / 10000⟩ →
      cmd.fOp.GetOpType = some .TypeTranslate →
      cmd.undo env s =
        cmd.fOp.Set s (.vec3 (cmd.fOp.GetPrecision s) cmd.fPrevValue) cmd.fTimeCode) := by
  have hclose : (cmd.fNewValue.sub cmd.fPrevValue).GetLengthSq ≤ undoTolerance * undoTolerance →
      cmd.undo env s = s := by
    intro h
    unfold UsdTranslateUndoableCommand.undo
    simp [hb, GfIsClose, h]
  refine ⟨hclose, fun h => hclose ?_, fun h ht => ?_⟩
  · rw [h]
    simp only [GfVec3d.GetLengthSq, undoTolerance]
    norm_num
  · apply undo_bound_translate env s cmd hb _ ht
    simp only [GfIsClose, h, GfVec3d.GetLengthSq, undoTolerance, decide_eq_false_iff_not]
    norm_num

/-- The tolerance at concrete inputs: a delta of `1e-6` in each component leaves the scene as it
is, a delta of `1e-4` is written back. -/
theorem undo_tolerance_witness :
    (boundCommand ⟨1, 2, 3⟩ ⟨1 + 1 / 1000000, 2 + 1 / 1000000, 3 + 1 / 1000000⟩).undo sceneEnv
      (translateStage .PrecisionDouble ⟨1 + 1 / 1000000, 2 + 1 / 1000000, 3 + 1 / 1000000⟩) =
      translateStage .PrecisionDouble ⟨1 + 1 / 1000000, 2 + 1 / 1000000, 3 + 1 / 1000000⟩ ∧
    (boundCommand ⟨1, 2, 3⟩ ⟨1 + 1 / 10000, 2 + 1 / 10000, 3 + 1 / 10000⟩).undo sceneEnv
      (translateStage .PrecisionDouble ⟨1 + 1 / 10000, 2 + 1 / 10000, 3 + 1 / 10000⟩) =
      UsdGeomXformOp.Set
        (translateStage .PrecisionDouble ⟨1 + 1 / 10000, 2 + 1 / 10000, 3 + 1 / 10000⟩)
        (.op "/p" .TypeTranslate "" false)
        (.vec3 (UsdGeomXformOp.GetPrecision
          (translateStage .PrecisionDouble ⟨1 + 1 / 10000, 2 + 1 / 10000, 3 + 1 / 10000⟩)
          (.op "/p" .TypeTranslate "" false)) ⟨1, 2, 3⟩) .Default :=
  ⟨(undo_tolerance sceneEnv
      (translateStage .PrecisionDouble ⟨1 + 1 / 1000000, 2 + 1 / 1000000, 3 + 1 / 1000000⟩)
      (boundCommand ⟨1, 2, 3⟩ ⟨1 + 1 / 1000000, 2 + 1 / 1000000, 3 + 1 / 1000000⟩) rfl).2.1
      (by decide!),
   (undo_tolerance sceneEnv
      (translateStage .PrecisionDouble ⟨1 + 1 / 10000, 2 + 1 / 10000, 3 + 1 / 10000⟩)
      (boundCommand ⟨1, 2, 3⟩ ⟨1 + 1 / 10000, 2 + 1 / 10000, 3 + 1 / 10000⟩) rfl).2.2
      (by decide!) rfl⟩

/-- C5 as stated fails: every component of `currentValue - previousValue` is `9e-6`, below
`1e-5`, yet `undo()` writes `previousValue` back and changes the scene: the test is on the
length of the difference, `9e-6 * sqrt 3`, which exceeds the tolerance. -/
theorem undo_writes_within_componentwise_tolerance :
    |(9 / 1000000 : ℚ)| < 1 / 100000 ∧
    (boundCommand ⟨0, 0, 0⟩ ⟨9 / 1000000, 9 / 1000000, 9 / 1000000⟩).fNewValue.sub
      (boundCommand ⟨0, 0, 0⟩ ⟨9 / 1000000, 9 / 1000000, 9 / 1000000⟩).fPrevValue =
      ⟨9 / 1000000, 9 / 1000000, 9 / 1000000⟩ ∧
    (boundCommand ⟨0, 0, 0⟩ ⟨9 / 1000000, 9 / 1000000, 9 / 1000000⟩).undo sceneEnv
      (translateStage .PrecisionDouble ⟨9 / 1000000, 9 / 1000000, 9 / 1000000⟩) =
      translateStage .PrecisionDouble ⟨0, 0, 0⟩ ∧
    translateStage .PrecisionDouble ⟨0, 0, 0⟩ ≠
      translateStage .PrecisionDouble ⟨9 / 1000000, 9 / 1000000, 9 / 1000000⟩ := by
  refine ⟨?_, ?_, ?_, ?_⟩
  · rw [abs_of_pos] <;> norm_num
  · decide!
  · decide!
  · decide!

/-! ### C6: precision preservation -/

/-- C6 (precision preservation): for a command bound to a pure translate operation declared as
a 3-vector of precision `pr` (half, float or double), the declared type and precision of the
operation after `undo()` are those before it; when the net change exceeds the tolerance,
`undo()` is one `Set` of `previousValue` as a 3-vector of exactly the precision `pr`, which is
then the value held on the edit target at the time code of the command; and otherwise `undo()`
writes nothing. -/
theorem undo_keeps_precision (env : Env) (s : UsdStage) (cmd : UsdTranslateUndoableCommand)
    (prim : SdfPath) (suffix : String) (pr : Precision) (l : SdfLayer)
    (hb : cmd.fCreatedOp = false)
    (hop : cmd.fOp = .op prim .TypeTranslate suffix false)
    (hty : UsdAttribute.GetTypeName s prim (.xformOp .TypeTranslate suffix false) =
      some (.vec3 pr))
    (hl : s.layers.get? s.editTarget = some l) :
    cmd.fOp.GetPrecision s = pr ∧
    cmd.fOp.GetPrecision (cmd.undo env s) = pr ∧
    UsdAttribute.GetTypeName (cmd.undo env s) prim (.xformOp .TypeTranslate suffix false) =
      some (.vec3 pr) ∧
    (GfIsClose cmd.fNewValue cmd.fPrevValue undoTolerance = true → cmd.undo env s = s) ∧
    (GfIsClose cmd.fNewValue cmd.fPrevValue undoTolerance = false →
      cmd.undo env s =
        UsdAttribute.Set s prim (.xformOp .TypeTranslate suffix false)
          (.vec3 pr cmd.fPrevValue) cmd.fTimeCode ∧
      ((((cmd.undo env s).layers.get? s.editTarget).bind
          (fun l => l.GetAttributeSpec prim (.xformOp .TypeTranslate suffix false))).bind
        (fun spec => specValueAt env spec cmd.fTimeCode) =
        some (.vec3 pr cmd.fPrevValue))) := by
  have hp : cmd.fOp.GetPrecision s = pr := by
    simp [hop, UsdGeomXformOp.GetPrecision, hty, GetPrecisionFromValueTypeName]
  have hclose : GfIsClose cmd.fNewValue cmd.fPrevValue undoTolerance = true →
      cmd.undo env s = s := by
    intro h
    unfold UsdTranslateUndoableCommand.undo
    simp [hb, h]
  have hfar : GfIsClose cmd.fNewValue cmd.fPrevValue undoTolerance = false →
      cmd.undo env s = UsdAttribute.Set s prim (.xformOp .TypeTranslate suffix false)
          (.vec3 pr cmd.fPrevValue) cmd.fTimeCode := by
    intro h
    rw [undo_bound_translate env s cmd hb h (by simp [hop, UsdGeomXformOp.GetOpType]), hp]
    simp [hop, UsdGeomXformOp.Set]
  have hty' : UsdAttribute.GetTypeName (cmd.undo env s) prim
      (.xformOp .TypeTranslate suffix false) = some (.vec3 pr) := by
    cases h : GfIsClose cmd.fNewValue cmd.fPrevValue undoTolerance with
    | true => rw [hclose h]; exact hty
    | false => rw [hfar h, GetTypeName_Set]; exact hty
  refine ⟨hp, ?_, hty', hclose, fun h => ⟨hfar h, ?_⟩⟩
  · simp [hop, UsdGeomXformOp.GetPrecision, hty', GetPrecisionFromValueTypeName]
  · rw [hfar h]
    exact layer_value_after_Set env s prim _ _ _ (.vec3 pr) l hty rfl hl

/-- Precision preservation at a concrete input: a single-precision op gets a single-precision
value. -/
theorem undo_keeps_precision_witness :
    UsdGeomXformOp.GetPrecision
      ((boundCommand ⟨1, 2, 3⟩ ⟨4, 5, 6⟩).undo sceneEnv (translateStage .PrecisionFloat ⟨4, 5, 6⟩))
      (boundCommand ⟨1, 2, 3⟩ ⟨4, 5, 6⟩).fOp = .PrecisionFloat ∧
    (boundCommand ⟨1, 2, 3⟩ ⟨4, 5, 6⟩).undo sceneEnv (translateStage .PrecisionFloat ⟨4, 5, 6⟩) =
      UsdAttribute.Set (translateStage .PrecisionFloat ⟨4, 5, 6⟩) "/p"
        (.xformOp .TypeTranslate "" false) (.vec3 .PrecisionFloat ⟨1, 2, 3⟩) .Default :=
  ⟨(undo_keeps_precision sceneEnv (translateStage .PrecisionFloat ⟨4, 5, 6⟩)
      (boundCommand ⟨1, 2, 3⟩ ⟨4, 5, 6⟩) "/p" "" .PrecisionFloat
      ⟨[("/p", ⟨[⟨.xformOp .TypeTranslate "" false, .vec3 .PrecisionFloat,
        some (.vec3 .PrecisionFloat ⟨4, 5, 6⟩), []⟩, translateOrderSpec]⟩)]⟩
      rfl rfl (by decide!) (by decide!)).2.1,
   ((undo_keeps_precision sceneEnv (translateStage .PrecisionFloat ⟨4, 5, 6⟩)
      (boundCommand ⟨1, 2, 3⟩ ⟨4, 5, 6⟩) "/p" "" .PrecisionFloat
      ⟨[("/p", ⟨[⟨.xformOp .TypeTranslate "" false, .vec3 .PrecisionFloat,
        some (.vec3 .PrecisionFloat ⟨4, 5, 6⟩), []⟩, translateOrderSpec]⟩)]⟩
      rfl rfl (by decide!) (by decide!)).2.2.2.2 (by decide!)).1⟩

/-! ### C7: the captured destination -/

/-- C7 (captured destination), evaluated where it fails: the command is constructed while the
edit target is the layer that defines `/p` with `xformOpOrder = ["xformOp:rotateXYZ"]`, so the
order attribute is merely extended; the edit target is then switched to the other, empty layer;
`undo()` authors `xformOpOrder` on that other layer, through `SetXformOpOrder` on the active
edit target, instead of leaving it unchanged. -/
theorem undo_extended_order_authors_on_active_target :
    (UsdTranslateUndoableCommand.create sceneEnv twoLayerStage "/p" 0 0 0 .Default).1.fCreatedOp
      = true ∧
    (UsdTranslateUndoableCommand.create sceneEnv twoLayerStage "/p" 0 0 0
      .Default).1.fCreatedOrderedAttr = false ∧
    (UsdTranslateUndoableCommand.create sceneEnv twoLayerStage "/p" 0 0 0 .Default).1.fEditTarget
      = some 0 ∧
    ((UsdTranslateUndoableCommand.create sceneEnv twoLayerStage "/p" 0 0 0
      .Default).2.SetEditTarget 1).layers.get? 1 = some emptyLayer ∧
    ((UsdTranslateUndoableCommand.create sceneEnv twoLayerStage "/p" 0 0 0 .Default).1.undo
      sceneEnv
      ((UsdTranslateUndoableCommand.create sceneEnv twoLayerStage "/p" 0 0 0
        .Default).2.SetEditTarget 1)).layers.get? 1 =
      some ⟨[("/p", ⟨[rotateOrderSpec]⟩)]⟩ ∧
    (⟨[("/p", ⟨[rotateOrderSpec]⟩)]⟩ : SdfLayer) ≠ emptyLayer := by
  decide!

/-- Undo of a created op whose order attribute was newly authored authors on the captured
layer only. -/
theorem undo_new_order_keeps_other_layers (env : Env) (s : UsdStage)
    (cmd : UsdTranslateUndoableCommand) (target : UsdEditTarget) (i : Nat)
    (hc : cmd.fCreatedOp = true) (ho : cmd.fCreatedOrderedAttr = true)
    (ht : cmd.fEditTarget = some target) (hi : i ≠ target) :
    (cmd.undo env s).layers.get? i = s.layers.get? i := by
  unfold UsdTranslateUndoableCommand.undo
  simp only [hc, ho, ht, if_true]
  split
  · rename_i t _ heq _
    cases heq
    simp only [authorAt_get_ne _ _ _ _ _ hi]
  · rfl

/-! ### C8: the creation postcondition -/

/-- C8, amended (creation postcondition): when binding fails at construction, on a stage with
a valid edit target where `xformOp:translate` is not listed in `xformOpOrder` yet,
`xformOpOrder` is a token array if it is declared, and no layer stronger than the edit target
holds a value for it, the resulting op stack is the newly created translate operation followed
by all previously ordered operations in their previous order, the reset flag is unchanged,
`fCreatedOp` is true, and `fCreatedOrderedAttr` is true exactly when `xformOpOrder` had no
authored value before. -/
theorem create_creation_postcondition (env : Env) (s : UsdStage) (prim : SdfPath) (x y z : ℚ)
    (timeCode : UsdTimeCode) (l : SdfLayer)
    (hfail : TransformManipulator.create env s prim timeCode = none)
    (hnew : TfToken.xformOp .TypeTranslate "" false ∉
      (UsdGeomXformable.GetXformOpOrderValue env s prim).getD [])
    (hl : s.layers.get? s.editTarget = some l)
    (hord : UsdAttribute.GetTypeName s prim .xformOpOrder = none ∨
      UsdAttribute.GetTypeName s prim .xformOpOrder = some .tokenArray)
    (hmask : (s.strongerSpecs prim .xformOpOrder).find?
      (fun spec => specHasValueAt spec .Default) = none) :
    (UsdTranslateUndoableCommand.create env s prim x y z timeCode).1.fCreatedOp = true ∧
    (UsdTranslateUndoableCommand.create env s prim x y z timeCode).1.fOp =
      .op prim .TypeTranslate "" false ∧
    (UsdTranslateUndoableCommand.create env s prim x y z timeCode).1.fCreatedOrderedAttr =
      !UsdAttribute.HasAuthoredValue s prim .xformOpOrder ∧
    UsdGeomXformable.GetOrderedXformOps env
        (UsdTranslateUndoableCommand.create env s prim x y z timeCode).2 prim =
      (.op prim .TypeTranslate "" false :: (UsdGeomXformable.GetOrderedXformOps env s prim).1,
        (UsdGeomXformable.GetOrderedXformOps env s prim).2) := by
  obtain ⟨s1, hE1, hv1, hT1, hadd⟩ := AddTranslateOp_spec env s prim l hl hnew
  obtain ⟨l1, hl1⟩ := editLayer_of_Extends hE1 l hl
  have hord1 : UsdAttribute.GetTypeName s1 prim .xformOpOrder = none ∨
      UsdAttribute.GetTypeName s1 prim .xformOpOrder = some .tokenArray := by
    rw [hT1]; exact hord
  have hmask1 : (s1.strongerSpecs prim .xformOpOrder).find?
      (fun spec => specHasValueAt spec .Default) = none := by
    rw [strongerSpecs_of_Extends hE1]; exact hmask
  obtain ⟨_, hE2, hT2⟩ := authorXformOpOrder_spec env s1 prim
    ((UsdGeomXformable.GetXformOpOrderValue env s prim).getD [] ++
      [TfToken.xformOp .TypeTranslate "" false]) l1 hl1 hord1 hmask1
  generalize hs2 : UsdGeomXformable.authorXformOpOrder s1 prim
    ((UsdGeomXformable.GetXformOpOrderValue env s prim).getD [] ++
      [TfToken.xformOp .TypeTranslate "" false]) = s2 at hadd hE2 hT2
  have hE2s : s2.Extends s := Extends_trans hE2 hE1
  obtain ⟨l2, hl2⟩ := editLayer_of_Extends hE2s l hl
  have hmask2 : (s2.strongerSpecs prim .xformOpOrder).find?
      (fun spec => specHasValueAt spec .Default) = none := by
    rw [strongerSpecs_of_Extends hE2s]; exact hmask
  have hres := GetOrderedXformOps_resolve env s prim
  generalize hops : UsdGeomXformable.GetOrderedXformOps env s prim = opsr at hres
  obtain ⟨ops, reset⟩ := opsr
  have hall : (UsdGeomXformOp.op prim .TypeTranslate "" false :: ops).all
      (fun op => decide (op.GetPrim = some prim)) = true := by
    apply opsResolve_all_GetPrim s2 prim
    intro op hop
    cases hop with
    | head => exact ⟨_, _, _, rfl, IsValid_of_Extends hE2 prim _ hv1⟩
    | tail _ hin => exact opsResolve_of_Extends hE2s prim ops hres op hin
  obtain ⟨hval, hE3, _⟩ := authorXformOpOrder_spec env s2 prim
    ((if reset then [TfToken.resetXformStack] else []) ++
      (UsdGeomXformOp.op prim .TypeTranslate "" false :: ops).map UsdGeomXformOp.GetOpName)
    l2 hl2 (Or.inr hT2) hmask2
  have hcreate : UsdTranslateUndoableCommand.create env s prim x y z timeCode =
      ({ fPrim := prim, fPrevValue := ⟨0, 0, 0⟩, fNewValue := ⟨x, y, z⟩, fPath := prim,
         fTimeCode := UsdTimeCode.Default, fOp := .op prim .TypeTranslate "" false,
         fEditTarget := some (UsdGeomXformable.SetXformOpOrder s2 prim
           (.op prim .TypeTranslate "" false :: ops) reset).editTarget,
         fCreatedOp := true,
         fCreatedOrderedAttr := if UsdAttribute.IsValid s prim .xformOpOrder
           then !UsdAttribute.HasAuthoredValue s prim .xformOpOrder else true },
        UsdGeomXformable.SetXformOpOrder s2 prim
          (.op prim .TypeTranslate "" false :: ops) reset) := by
    simp [UsdTranslateUndoableCommand.create, hfail, hadd, hops]
  rw [hcreate]
  refine ⟨rfl, rfl, createdOrderedAttr_eq s prim, ?_⟩
  simp only
  unfold UsdGeomXformable.SetXformOpOrder
  rw [if_pos hall]
  unfold UsdGeomXformable.GetOrderedXformOps
  rw [hval]
  have hE3s := Extends_trans hE3 hE2s
  have hv3 : UsdAttribute.IsValid (UsdGeomXformable.authorXformOpOrder s2 prim
      ((if reset then [TfToken.resetXformStack] else []) ++
        (UsdGeomXformOp.op prim .TypeTranslate "" false :: ops).map UsdGeomXformOp.GetOpName))
      prim (.xformOp .TypeTranslate "" false) = true :=
    IsValid_of_Extends (Extends_trans hE3 hE2) prim _ hv1
  have hres3 := opsResolve_of_Extends hE3s prim ops hres
  exact orderedXformOpsFrom_head _ prim ops reset hv3 hres3

/-- The creation postcondition at a concrete input: a prim with a rotate op. -/
theorem create_creation_postcondition_witness :
    (UsdTranslateUndoableCommand.create sceneEnv twoLayerStage "/p" 0 0 0 .Default).1.fCreatedOp
      = true ∧
    (UsdTranslateUndoableCommand.create sceneEnv twoLayerStage "/p" 0 0 0
      .Default).1.fCreatedOrderedAttr =
      !UsdAttribute.HasAuthoredValue twoLayerStage "/p" .xformOpOrder ∧
    UsdGeomXformable.GetOrderedXformOps sceneEnv
        (UsdTranslateUndoableCommand.create sceneEnv twoLayerStage "/p" 0 0 0 .Default).2 "/p" =
      (.op "/p" .TypeTranslate "" false ::
        (UsdGeomXformable.GetOrderedXformOps sceneEnv twoLayerStage "/p").1,
        (UsdGeomXformable.GetOrderedXformOps sceneEnv twoLayerStage "/p").2) :=
  ⟨(create_creation_postcondition sceneEnv twoLayerStage "/p" 0 0 0 .Default rotateLayer
      (by decide!) (by decide!) (by decide!) (by decide!) (by decide!)).1,
   (create_creation_postcondition sceneEnv twoLayerStage "/p" 0 0 0 .Default rotateLayer
      (by decide!) (by decide!) (by decide!) (by decide!) (by decide!)).2.2.1,
   (create_creation_postcondition sceneEnv twoLayerStage "/p" 0 0 0 .Default rotateLayer
      (by decide!) (by decide!) (by decide!) (by decide!) (by decide!)).2.2.2⟩

/-- C8 as stated fails.  First scene: `/p` has a rotate op and its `xformOpOrder` on the
stronger layer, and the edit target is the weaker, empty layer; binding fails and the
constructor authors the translate op and the order on the edit target, but the stronger layer
still holds the order: the op stack after construction is `[rotate]`, as before, not the
translate op followed by the rotate op.  Second scene: `xformOpOrder` lists
`xformOp:translate` while the attribute itself is missing; binding fails, `AddTranslateOp`
refuses the listed name, the op of the command is invalid, nothing is authored and the op stack
stays empty. -/
theorem creation_misses_op_stack :
    TransformManipulator.create sceneEnv (twoLayerStage.SetEditTarget 1) "/p" .Default = none ∧
    (UsdTranslateUndoableCommand.create sceneEnv (twoLayerStage.SetEditTarget 1) "/p" 0 0 0
      .Default).1.fCreatedOp = true ∧
    (UsdTranslateUndoableCommand.create sceneEnv (twoLayerStage.SetEditTarget 1) "/p" 0 0 0
      .Default).1.fOp = .op "/p" .TypeTranslate "" false ∧
    UsdGeomXformable.GetOrderedXformOps sceneEnv (twoLayerStage.SetEditTarget 1) "/p" =
      ([.op "/p" .TypeRotateXYZ "" false], false) ∧
    UsdGeomXformable.GetOrderedXformOps sceneEnv
      (UsdTranslateUndoableCommand.create sceneEnv (twoLayerStage.SetEditTarget 1) "/p" 0 0 0
        .Default).2 "/p" = ([.op "/p" .TypeRotateXYZ "" false], false) ∧
    TransformManipulator.create sceneEnv orphanedOrderStage "/p" .Default = none ∧
    (UsdTranslateUndoableCommand.create sceneEnv orphanedOrderStage "/p" 0 0 0
      .Default).1.fCreatedOp = true ∧
    (UsdTranslateUndoableCommand.create sceneEnv orphanedOrderStage "/p" 0 0 0
      .Default).1.fOp = .invalid ∧
    (UsdTranslateUndoableCommand.create sceneEnv orphanedOrderStage "/p" 0 0 0 .Default).2 =
      orphanedOrderStage ∧
    UsdGeomXformable.GetOrderedXformOps sceneEnv
      (UsdTranslateUndoableCommand.create sceneEnv orphanedOrderStage "/p" 0 0 0
        .Default).2 "/p" = ([], false) := by
  refine ⟨?_, ?_, ?_, ?_, ?_, ?_, ?_, ?_, ?_, ?_⟩ <;> decide!

/-! ### C9: the bound construction postcondition -/

/-- C9 (bound construction): when binding succeeds at construction, `fCreatedOp` and
`fCreatedOrderedAttr` are false, `fPrevValue` is the translation of the bound operation read at
the supplied time, the time code of the command is the default time code if the bound operation
has zero time samples and the supplied one otherwise, and the scene is unchanged. -/
theorem create_bound_postcondition (env : Env) (s : UsdStage) (prim : SdfPath) (x y z : ℚ)
    (timeCode : UsdTimeCode) (proc : TransformManipulator)
    (hbind : TransformManipulator.create env s prim timeCode = some proc) :
    (UsdTranslateUndoableCommand.create env s prim x y z timeCode).1.fCreatedOp = false ∧
    (UsdTranslateUndoableCommand.create env s prim x y z timeCode).1.fCreatedOrderedAttr
      = false ∧
    (UsdTranslateUndoableCommand.create env s prim x y z timeCode).1.fOp = proc.op ∧
    (UsdTranslateUndoableCommand.create env s prim x y z timeCode).1.fPrevValue =
      decodeTranslation (proc.op.Get env s timeCode) ∧
    (UsdTranslateUndoableCommand.create env s prim x y z timeCode).1.fTimeCode =
      (if proc.op.GetNumTimeSamples s = 0 then UsdTimeCode.Default else timeCode) ∧
    (UsdTranslateUndoableCommand.create env s prim x y z timeCode).2 = s := by
  rw [create_bound env s prim x y z timeCode proc hbind]
  refine ⟨rfl, rfl, rfl, ?_, ?_, rfl⟩
  · simp [TransformManipulator.Translation, (create_timeCode env s prim timeCode proc hbind).1]
  · by_cases h : proc.op.GetNumTimeSamples s = 0 <;> simp [ExistingOpHasSamples, h]

/-- Bound construction at a concrete input: an op without time samples, constructed at time 24. -/
theorem create_bound_postcondition_witness :
    (UsdTranslateUndoableCommand.create sceneEnv (translateStage .PrecisionFloat ⟨1, 2, 3⟩)
      "/p" 0 0 0 (.time 24)).1.fTimeCode =
      (if translateProc.op.GetNumTimeSamples (translateStage .PrecisionFloat ⟨1, 2, 3⟩) = 0
        then UsdTimeCode.Default else .time 24) ∧
    (UsdTranslateUndoableCommand.create sceneEnv (translateStage .PrecisionFloat ⟨1, 2, 3⟩)
      "/p" 0 0 0 (.time 24)).2 = translateStage .PrecisionFloat ⟨1, 2, 3⟩ :=
  ⟨(create_bound_postcondition sceneEnv (translateStage .PrecisionFloat ⟨1, 2, 3⟩) "/p" 0 0 0
      (.time 24) { translateProc with timeCode := .time 24 } (by decide!)).2.2.2.2.1,
   (create_bound_postcondition sceneEnv (translateStage .PrecisionFloat ⟨1, 2, 3⟩) "/p" 0 0 0
      (.time 24) { translateProc with timeCode := .time 24 } (by decide!)).2.2.2.2.2⟩

/-! ### C10: matrix-embedded undo -/

/-- C10 (matrix-embedded undo): for a command bound to a matrix operation whose net change
exceeds the tolerance, `undo()` is one `Set`, at the time code of the command, of the matrix
read there before the undo with the entries `M[3][0]`, `M[3][1]`, `M[3][2]` replaced by
`previousValue`; the other thirteen entries are those read. -/
theorem undo_matrix (env : Env) (s : UsdStage) (cmd : UsdTranslateUndoableCommand)
    (M : GfMatrix4d)
    (hb : cmd.fCreatedOp = false)
    (ht : cmd.fOp.GetOpType = some .TypeTransform)
    (hfar : GfIsClose cmd.fNewValue cmd.fPrevValue undoTolerance = false)
    (hM : cmd.fOp.Get env s cmd.fTimeCode = some (.matrix4d M)) :
    cmd.undo env s =
      cmd.fOp.Set s
        (.matrix4d ⟨M.r0, M.r1, M.r2,
          ⟨cmd.fPrevValue.x, cmd.fPrevValue.y, cmd.fPrevValue.z, M.r3.w⟩⟩) cmd.fTimeCode := by
  unfold UsdTranslateUndoableCommand.undo
  simp only [hb, hfar, ht, hM]
  rfl

/-- Matrix-embedded undo at a concrete input. -/
theorem undo_matrix_witness :
    (matrixCommand ⟨7, 8, 9⟩ ⟨1, 2, 3⟩).undo sceneEnv matrixStage =
      UsdGeomXformOp.Set matrixStage (matrixCommand ⟨7, 8, 9⟩ ⟨1, 2, 3⟩).fOp
        (.matrix4d ⟨sampleMatrix.r0, sampleMatrix.r1, sampleMatrix.r2,
          ⟨7, 8, 9, sampleMatrix.r3.w⟩⟩) .Default :=
  undo_matrix sceneEnv matrixStage (matrixCommand ⟨7, 8, 9⟩ ⟨1, 2, 3⟩) sampleMatrix rfl rfl
    (by decide!) (by decide!)


/-! ### What a `Set` leaves alone -/

theorem layerSpec_Set_ne (s : UsdStage) (path q : SdfPath) (name m : TfToken) (v : VtValue)
    (time : UsdTimeCode) (i : Nat) (h : q ≠ path ∨ m ≠ name) :
    ((UsdAttribute.Set s path name v time).layers.get? i).bind
        (fun l => l.GetAttributeSpec q m) =
      (s.layers.get? i).bind (fun l => l.GetAttributeSpec q m) := by
  by_cases hm : UsdAttribute.GetTypeName s path name = some v.typeName
  · rw [Set_of_match s path name v time v.typeName hm rfl]
    simp only
    by_cases hi : i = s.editTarget
    · subst hi
      rw [modifyNth_get_eq]
      cases hl : s.layers.get? s.editTarget with
      | none => rfl
      | some l =>
        simp only [Option.map_some', Option.some_bind]
        by_cases hq : q = path
        · subst hq
          exact withValue_GetAttributeSpec_ne _ _ _ _ _ _ _ (h.resolve_left (fun h => h rfl))
        · exact withValue_GetAttributeSpec_other _ _ _ _ _ _ _ _ hq
    · rw [modifyNth_get_ne _ _ _ _ hi]
  · rw [Set_of_mismatch s path name v time hm]

theorem Set_get_ne (s : UsdStage) (path : SdfPath) (name : TfToken) (v : VtValue)
    (time : UsdTimeCode) (i : Nat) (hi : i ≠ s.editTarget) :
    (UsdAttribute.Set s path name v time).layers.get? i = s.layers.get? i := by
  by_cases hm : UsdAttribute.GetTypeName s path name = some v.typeName
  · rw [Set_of_match s path name v time v.typeName hm rfl]
    exact modifyNth_get_ne _ _ _ _ hi
  · rw [Set_of_mismatch s path name v time hm]

theorem opSet_cases (s : UsdStage) (op : UsdGeomXformOp) (v : VtValue) (time : UsdTimeCode) :
    op.Set s v time = s ∨
      ∃ prim, op.GetPrim = some prim ∧
        op.Set s v time = UsdAttribute.Set s prim op.GetName v time := by
  cases op with
  | invalid => exact Or.inl rfl
  | op prim opType suffix isInverseOp =>
    cases isInverseOp with
    | true => exact Or.inl rfl
    | false => exact Or.inr ⟨prim, rfl, rfl⟩

theorem orderedXformOpsFrom_congr (s s' : UsdStage) (prim : SdfPath)
    (h : ∀ m, UsdAttribute.IsValid s' prim m = UsdAttribute.IsValid s prim m)
    (ts : List TfToken) (acc : List UsdGeomXformOp × Bool) :
    orderedXformOpsFrom s' prim ts acc = orderedXformOpsFrom s prim ts acc := by
  induction ts generalizing acc with
  | nil => rfl
  | cons tok rest ih =>
    obtain ⟨ops, reset⟩ := acc
    cases tok with
    | xformOpOrder => exact ih _
    | resetXformStack => exact ih _
    | other text => exact ih _
    | xformOp ty suf inv => simp only [orderedXformOpsFrom, h, ih]

/-- The frame of a stage edit that leaves the property stacks of all attributes but one as
they are and keeps every declared type. -/
theorem reads_of_frame (env : Env) (s s' : UsdStage) (target : Option SdfPath) (name : TfToken)
    (hname : name ≠ .xformOpOrder)
    (hps : ∀ (q : SdfPath) (m : TfToken), (some q ≠ target ∨ m ≠ name) →
      s'.propertyStack q m = s.propertyStack q m)
    (hty : ∀ (q : SdfPath) (m : TfToken),
      UsdAttribute.GetTypeName s' q m = UsdAttribute.GetTypeName s q m) :
    (∀ q, UsdGeomXformable.GetXformOpOrderValue env s' q =
      UsdGeomXformable.GetXformOpOrderValue env s q) ∧
    (∀ q, UsdGeomXformable.GetOrderedXformOps env s' q =
      UsdGeomXformable.GetOrderedXformOps env s q) ∧
    (∀ (op : UsdGeomXformOp) (time : UsdTimeCode),
      (op.GetPrim ≠ target ∨ op.GetName ≠ name) →
        op.Get env s' time = op.Get env s time ∧
        op.GetPrecision s' = op.GetPrecision s ∧
        op.GetNumTimeSamples s' = op.GetNumTimeSamples s) := by
  have hord : ∀ q, UsdGeomXformable.GetXformOpOrderValue env s' q =
      UsdGeomXformable.GetXformOpOrderValue env s q := by
    intro q
    unfold UsdGeomXformable.GetXformOpOrderValue UsdAttribute.Get
    rw [hps q .xformOpOrder (Or.inr (Ne.symm hname))]
  refine ⟨hord, ?_, ?_⟩
  · intro q
    unfold UsdGeomXformable.GetOrderedXformOps
    rw [hord q]
    cases UsdGeomXformable.GetXformOpOrderValue env s q with
    | none => rfl
    | some ts =>
      exact orderedXformOpsFrom_congr s s' q (fun m => by rw [IsValid_iff, IsValid_iff, hty]) _ _
  · intro op time hop
    cases op with
    | invalid => exact ⟨rfl, rfl, rfl⟩
    | op prim opType suffix isInverseOp =>
      have hother : some prim ≠ target ∨ TfToken.xformOp opType suffix false ≠ name := hop
      refine ⟨?_, ?_, ?_⟩
      · simp only [UsdGeomXformOp.Get, UsdAttribute.Get, hps prim _ hother]
      · simp only [UsdGeomXformOp.GetPrecision, hty]
      · simp only [UsdGeomXformOp.GetNumTimeSamples, UsdAttribute.GetNumTimeSamples,
          hps prim _ hother]

theorem GetName_ne_xformOpOrder (op : UsdGeomXformOp) : op.GetName ≠ .xformOpOrder := by
  cases op <;> simp [UsdGeomXformOp.GetName]

/-- What `undo` does for a bound command: nothing, or one `Set` on its op at its time code. -/
theorem undo_bound_cases (env : Env) (s : UsdStage) (cmd : UsdTranslateUndoableCommand)
    (hb : cmd.fCreatedOp = false) :
    cmd.undo env s = s ∨ ∃ v, cmd.undo env s = cmd.fOp.Set s v cmd.fTimeCode := by
  unfold UsdTranslateUndoableCommand.undo
  simp only [hb, Bool.false_eq_true, if_false]
  split
  · exact Or.inl rfl
  · split
    · split
      · exact Or.inr ⟨_, rfl⟩
      · exact Or.inr ⟨_, rfl⟩
      · exact Or.inr ⟨_, rfl⟩
    · exact Or.inr ⟨_, rfl⟩
    · exact Or.inl rfl

theorem opSet_frame (s : UsdStage) (op : UsdGeomXformOp) (v : VtValue) (time : UsdTimeCode) :
    (op.Set s v time).editTarget = s.editTarget ∧
    (∀ i, i ≠ s.editTarget → (op.Set s v time).layers.get? i = s.layers.get? i) ∧
    (∀ (i : Nat) (q : SdfPath) (m : TfToken), (some q ≠ op.GetPrim ∨ m ≠ op.GetName) →
      ((op.Set s v time).layers.get? i).bind (fun l => l.GetAttributeSpec q m) =
        (s.layers.get? i).bind (fun l => l.GetAttributeSpec q m)) ∧
    (∀ (q : SdfPath) (m : TfToken), (some q ≠ op.GetPrim ∨ m ≠ op.GetName) →
      (op.Set s v time).propertyStack q m = s.propertyStack q m) ∧
    (∀ (q : SdfPath) (m : TfToken),
      UsdAttribute.GetTypeName (op.Set s v time) q m = UsdAttribute.GetTypeName s q m) := by
  rcases opSet_cases s op v time with h | ⟨prim, hp, h⟩
  · rw [h]
    exact ⟨rfl, fun _ _ => rfl, fun _ _ _ _ => rfl, fun _ _ _ => rfl, fun _ _ => rfl⟩
  · rw [h, hp]
    have hne : ∀ (q : SdfPath) (m : TfToken), (some q ≠ some prim ∨ m ≠ op.GetName) →
        q ≠ prim ∨ m ≠ op.GetName := by
      intro q m hqm
      rcases hqm with hq | hm
      · exact Or.inl (fun e => hq (by rw [e]))
      · exact Or.inr hm
    refine ⟨Set_editTarget _ _ _ _ _, fun i hi => Set_get_ne _ _ _ _ _ i hi,
      fun i q m hqm => layerSpec_Set_ne _ _ _ _ _ _ _ i (hne q m hqm),
      fun q m hqm => propertyStack_Set_ne _ _ _ _ _ _ _ (hne q m hqm),
      fun q m => GetTypeName_Set _ _ _ _ _ _ _⟩

/-! ### C11: the frame of a bound undo -/

/-- C11 (bound undo frame), as amended: for every command bound to an existing operation
(`fCreatedOp = false`), `undo()` leaves the stage as it is or makes one `Set` on the target
operation at the time code of the command. The edit target and every layer but the one of the
edit target are unchanged; on every layer the spec of every attribute other than the
attribute of the target operation is unchanged; the value of `xformOpOrder`, the ordered ops
and the reset flag of every prim are unchanged; the declared type of every attribute is
unchanged; and every operation over another attribute than the one of the target operation
has the same value at every time, the same precision and the same number of time samples. -/
theorem undo_bound_frame (env : Env) (s : UsdStage) (cmd : UsdTranslateUndoableCommand)
    (hb : cmd.fCreatedOp = false) :
    (cmd.undo env s = s ∨ ∃ v, cmd.undo env s = cmd.fOp.Set s v cmd.fTimeCode) ∧
    (cmd.undo env s).editTarget = s.editTarget ∧
    (∀ i, i ≠ s.editTarget → (cmd.undo env s).layers.get? i = s.layers.get? i) ∧
    (∀ (i : Nat) (q : SdfPath) (m : TfToken),
      (some q ≠ cmd.fOp.GetPrim ∨ m ≠ cmd.fOp.GetName) →
        ((cmd.undo env s).layers.get? i).bind (fun l => l.GetAttributeSpec q m) =
          (s.layers.get? i).bind (fun l => l.GetAttributeSpec q m)) ∧
    (∀ q, UsdGeomXformable.GetXformOpOrderValue env (cmd.undo env s) q =
      UsdGeomXformable.GetXformOpOrderValue env s q) ∧
    (∀ q, UsdGeomXformable.GetOrderedXformOps env (cmd.undo env s) q =
      UsdGeomXformable.GetOrderedXformOps env s q) ∧
    (∀ (q : SdfPath) (m : TfToken),
      UsdAttribute.GetTypeName (cmd.undo env s) q m = UsdAttribute.GetTypeName s q m) ∧
    (∀ (op : UsdGeomXformOp) (time : UsdTimeCode),
      (op.GetPrim ≠ cmd.fOp.GetPrim ∨ op.GetName ≠ cmd.fOp.GetName) →
        op.Get env (cmd.undo env s) time = op.Get env s time ∧
        op.GetPrecision (cmd.undo env s) = op.GetPrecision s ∧
        op.GetNumTimeSamples (cmd.undo env s) = op.GetNumTimeSamples s) := by
  have hcases := undo_bound_cases env s cmd hb
  refine ⟨hcases, ?_⟩
  have hframe : (cmd.undo env s).editTarget = s.editTarget ∧
      (∀ i, i ≠ s.editTarget → (cmd.undo env s).layers.get? i = s.layers.get? i) ∧
      (∀ (i : Nat) (q : SdfPath) (m : TfToken),
        (some q ≠ cmd.fOp.GetPrim ∨ m ≠ cmd.fOp.GetName) →
          ((cmd.undo env s).layers.get? i).bind (fun l => l.GetAttributeSpec q m) =
            (s.layers.get? i).bind (fun l => l.GetAttributeSpec q m)) ∧
      (∀ (q : SdfPath) (m : TfToken), (some q ≠ cmd.fOp.GetPrim ∨ m ≠ cmd.fOp.GetName) →
        (cmd.undo env s).propertyStack q m = s.propertyStack q m) ∧
      (∀ (q : SdfPath) (m : TfToken),
        UsdAttribute.GetTypeName (cmd.undo env s) q m = UsdAttribute.GetTypeName s q m) := by
    rcases hcases with h | ⟨v, h⟩
    · rw [h]
      exact ⟨rfl, fun _ _ => rfl, fun _ _ _ _ => rfl, fun _ _ _ => rfl, fun _ _ => rfl⟩
    · rw [h]
      exact opSet_frame s cmd.fOp v cmd.fTimeCode
  obtain ⟨hE, hL, hS, hP, hT⟩ := hframe
  obtain ⟨hord, hops, hval⟩ :=
    reads_of_frame env s (cmd.undo env s) cmd.fOp.GetPrim cmd.fOp.GetName
      (GetName_ne_xformOpOrder cmd.fOp) hP hT
  exact ⟨hE, hL, hS, hord, hops, hT, hval⟩

/-- The frame of a bound undo on the stack `[translate, rotate]`: the translate op moved from
`(0, 0, 0)` to `(5, 0, 0)` goes back, while the order, the ops, the reset flag and the value of
the rotate op are those before `undo()`. -/
theorem undo_bound_frame_witness :
    (boundCommand ⟨0, 0, 0⟩ ⟨5, 0, 0⟩).undo sceneEnv (stackStage ⟨5, 0, 0⟩ translateRotateOrder) =
      stackStage ⟨0, 0, 0⟩ translateRotateOrder ∧
    UsdGeomXformable.GetXformOpOrderValue sceneEnv
      ((boundCommand ⟨0, 0, 0⟩ ⟨5, 0, 0⟩).undo sceneEnv
        (stackStage ⟨5, 0, 0⟩ translateRotateOrder)) "/p" = some translateRotateOrder ∧
    UsdGeomXformable.GetOrderedXformOps sceneEnv
      ((boundCommand ⟨0, 0, 0⟩ ⟨5, 0, 0⟩).undo sceneEnv
        (stackStage ⟨5, 0, 0⟩ translateRotateOrder)) "/p" =
      ([.op "/p" .TypeTranslate "" false, .op "/p" .TypeRotateXYZ "" false], false) ∧
    UsdGeomXformOp.Get sceneEnv
      ((boundCommand ⟨0, 0, 0⟩ ⟨5, 0, 0⟩).undo sceneEnv
        (stackStage ⟨5, 0, 0⟩ translateRotateOrder))
      (.op "/p" .TypeRotateXYZ "" false) .Default = some (.vec3 .PrecisionFloat ⟨0, 90, 0⟩) :=
  ⟨by decide!,
   ((undo_bound_frame sceneEnv (stackStage ⟨5, 0, 0⟩ translateRotateOrder)
      (boundCommand ⟨0, 0, 0⟩ ⟨5, 0, 0⟩) rfl).2.2.2.2.1 "/p").trans (by decide!),
   ((undo_bound_frame sceneEnv (stackStage ⟨5, 0, 0⟩ translateRotateOrder)
      (boundCommand ⟨0, 0, 0⟩ ⟨5, 0, 0⟩) rfl).2.2.2.2.2.1 "/p").trans (by decide!),
   ((undo_bound_frame sceneEnv (stackStage ⟨5, 0, 0⟩ translateRotateOrder)
      (boundCommand ⟨0, 0, 0⟩ ⟨5, 0, 0⟩) rfl).2.2.2.2.2.2.2
        (.op "/p" .TypeRotateXYZ "" false) .Default (Or.inr (by decide))).1.trans (by decide!)⟩

/-- C11 as stated fails for an operation that shares the attribute of the target operation:
on the stack `[translate, rotate, !invert!translate]` the command is bound to the translate
op; after `translate(5, 0, 0)` the inverse op, another entry of the stack, holds `(5, 0, 0)`,
and after `undo()` it holds `(0, 0, 0)`. -/
theorem undo_changes_paired_inverse_op :
    UsdTranslateUndoableCommand.create sceneEnv (stackStage ⟨0, 0, 0⟩ pairedOrder) "/p" 0 0 0
      .Default = (boundCommand ⟨0, 0, 0⟩ ⟨0, 0, 0⟩, stackStage ⟨0, 0, 0⟩ pairedOrder) ∧
    (boundCommand ⟨0, 0, 0⟩ ⟨0, 0, 0⟩).translate sceneEnv .kTransform
      (stackStage ⟨0, 0, 0⟩ pairedOrder) 5 0 0 =
      (true, boundCommand ⟨0, 0, 0⟩ ⟨5, 0, 0⟩, stackStage ⟨5, 0, 0⟩ pairedOrder) ∧
    (boundCommand ⟨0, 0, 0⟩ ⟨5, 0, 0⟩).fCreatedOp = false ∧
    UsdGeomXformOp.op "/p" .TypeTranslate "" true ∈
      (UsdGeomXformable.GetOrderedXformOps sceneEnv (stackStage ⟨5, 0, 0⟩ pairedOrder) "/p").1 ∧
    UsdGeomXformOp.op "/p" .TypeTranslate "" true ≠ (boundCommand ⟨0, 0, 0⟩ ⟨5, 0, 0⟩).fOp ∧
    UsdGeomXformOp.Get sceneEnv (stackStage ⟨5, 0, 0⟩ pairedOrder)
      (.op "/p" .TypeTranslate "" true) .Default = some (.vec3 .PrecisionDouble ⟨5, 0, 0⟩) ∧
    UsdGeomXformOp.Get sceneEnv
      ((boundCommand ⟨0, 0, 0⟩ ⟨5, 0, 0⟩).undo sceneEnv (stackStage ⟨5, 0, 0⟩ pairedOrder))
      (.op "/p" .TypeTranslate "" true) .Default = some (.vec3 .PrecisionDouble ⟨0, 0, 0⟩) := by
  refine ⟨?_, ?_, ?_, ?_, ?_, ?_, ?_⟩ <;> decide!

/-! ### Removing attribute specs -/

theorem removeAttrSpecNamed_of_none (attrs : List SdfAttributeSpec) (name : TfToken)
    (h : attrs.find? (fun a => decide (a.name = name)) = none) :
    removeAttrSpecNamed attrs name = attrs := by
  induction attrs with
  | nil => rfl
  | cons a rest ih =>
    by_cases ha : a.name = name
    · simp [List.find?, ha] at h
    · have hn : ¬ name = a.name := fun e => ha e.symm
      simp only [List.find?, ha, decide_False] at h
      simp only [removeAttrSpecNamed, hn, if_false, ih h]

theorem find_removeAttrSpecNamed_ne (attrs : List SdfAttributeSpec) (name other : TfToken)
    (h : other ≠ name) :
    (removeAttrSpecNamed attrs name).find? (fun a => decide (a.name = other)) =
      attrs.find? (fun a => decide (a.name = other)) := by
  induction attrs with
  | nil => rfl
  | cons a rest ih =>
    by_cases ha : name = a.name
    · have ho : ¬ a.name = other := fun e => h (e.symm.trans ha.symm)
      simp [removeAttrSpecNamed, ha, List.find?, ho]
    · by_cases ho : a.name = other
      · rw [removeAttrSpecNamed, if_neg ha]
        simp only [List.find?, ho, decide_True]
      · rw [removeAttrSpecNamed, if_neg ha]
        simp only [List.find?, ho, decide_False, ih]

theorem putPrimSpec_self (l : List (SdfPath × SdfPrimSpec)) (path : SdfPath) (ps : SdfPrimSpec)
    (h : getPrimSpec l path = some ps) : putPrimSpec l path ps = l := by
  induction l with
  | nil => simp [getPrimSpec] at h
  | cons a rest ih =>
    obtain ⟨q, qs⟩ := a
    by_cases hq : q = path
    · simp only [getPrimSpec, hq, if_true, Option.some.injEq] at h
      simp [putPrimSpec, hq, h]
    · simp only [getPrimSpec, hq, if_false] at h
      simp [putPrimSpec, hq, ih h]

theorem modifyNth_self {α : Type} (f : α → α) (l : List α) (n : Nat)
    (h : ∀ a, l.get? n = some a → f a = a) : modifyNth f l n = l := by
  induction l generalizing n with
  | nil => rfl
  | cons a rest ih =>
    cases n with
    | zero => simp [modifyNth, h a (by simp)]
    | succ n =>
      simp only [modifyNth, List.cons.injEq, true_and]
      exact ih n (fun b hb => h b (by simpa using hb))

theorem authorAt_self (s : UsdStage) (target : UsdEditTarget) (path : SdfPath)
    (f : SdfPrimSpec → SdfPrimSpec) (ps : SdfPrimSpec)
    (hps : GetPrimSpecForScenePath s (some target) path = some ps) (hf : f ps = ps) :
    s.authorAt target path f = s := by
  unfold UsdStage.authorAt
  have : modifyNth (fun l => l.editPrimSpec path f) s.layers target = s.layers := by
    apply modifyNth_self
    intro l hl
    simp only [GetPrimSpecForScenePath, hl, Option.some_bind] at hps
    simp only [SdfLayer.editPrimSpec, hps, Option.getD_some, hf]
    have := putPrimSpec_self l.primSpecs path ps hps
    rw [this]
  rw [this]

/-- An edit of a prim spec that keeps its spec of the attribute `m` keeps the spec of `m` of
every prim on every layer. -/
theorem layerSpec_authorAt (s : UsdStage) (target : UsdEditTarget) (path : SdfPath)
    (f : SdfPrimSpec → SdfPrimSpec) (m : TfToken)
    (hf : ∀ ps, (f ps).GetAttributeSpec m = ps.GetAttributeSpec m) (i : Nat) (q : SdfPath) :
    ((s.authorAt target path f).layers.get? i).bind (fun l => l.GetAttributeSpec q m) =
      (s.layers.get? i).bind (fun l => l.GetAttributeSpec q m) := by
  unfold UsdStage.authorAt
  simp only
  by_cases hi : i = target
  · subst hi
    rw [modifyNth_get_eq]
    cases hl : s.layers.get? i with
    | none => rfl
    | some l =>
      simp only [Option.map_some', Option.some_bind]
      by_cases hq : q = path
      · subst hq
        simp only [SdfLayer.GetAttributeSpec, editPrimSpec_GetPrimAtPath_eq, Option.some_bind, hf]
        cases l.GetPrimAtPath q with
        | none => rfl
        | some ps => rfl
      · simp only [SdfLayer.GetAttributeSpec, editPrimSpec_GetPrimAtPath_ne _ _ _ _ hq]
  · rw [modifyNth_get_ne _ _ _ _ hi]

theorem layerSpec_Create_ne (s : UsdStage) (path q : SdfPath) (name m : TfToken)
    (typeName : SdfValueTypeName) (i : Nat) (h : m ≠ name) :
    ((UsdPrim.CreateAttribute s path name typeName).layers.get? i).bind
        (fun l => l.GetAttributeSpec q m) =
      (s.layers.get? i).bind (fun l => l.GetAttributeSpec q m) := by
  unfold UsdPrim.CreateAttribute UsdStage.CreateAttributeSpecForEditing
  apply layerSpec_authorAt
  intro ps
  unfold SdfPrimSpec.ensureAttributeSpec
  cases hσ : ps.GetAttributeSpec name with
  | some σ => rfl
  | none =>
    simp only [SdfPrimSpec.GetAttributeSpec, List.find?_append]
    have : ¬ name = m := fun e => h e.symm
    simp [List.find?, this]

theorem layerSpec_SetXformOpOrder (s : UsdStage) (prim q : SdfPath)
    (ops : List UsdGeomXformOp) (reset : Bool) (m : TfToken) (i : Nat)
    (h : m ≠ .xformOpOrder) :
    ((UsdGeomXformable.SetXformOpOrder s prim ops reset).layers.get? i).bind
        (fun l => l.GetAttributeSpec q m) =
      (s.layers.get? i).bind (fun l => l.GetAttributeSpec q m) := by
  unfold UsdGeomXformable.SetXformOpOrder
  split
  · unfold UsdGeomXformable.authorXformOpOrder
    rw [layerSpec_Set_ne _ _ _ _ _ _ _ i (Or.inr h), layerSpec_Create_ne _ _ _ _ _ _ i h]
  · rfl

theorem eraseOpNamed_of_absent (ops : List UsdGeomXformOp) (name : TfToken)
    (h : ∀ op ∈ ops, op.GetName ≠ name) : eraseOpNamed ops name = none := by
  induction ops with
  | nil => rfl
  | cons op rest ih =>
    simp only [eraseOpNamed, h op (List.mem_cons_self _ _), if_false,
      ih (fun o ho => h o (List.mem_cons_of_mem _ ho)), Option.map_none']

/-- What `undo` does for a command that created its op, when the prim spec is on the captured
destination. -/
theorem undo_created_present (env : Env) (s : UsdStage) (cmd : UsdTranslateUndoableCommand)
    (target : UsdEditTarget) (ps : SdfPrimSpec) (hc : cmd.fCreatedOp = true)
    (ht : cmd.fEditTarget = some target)
    (hps : GetPrimSpecForScenePath s (some target) cmd.fPrim = some ps) :
    cmd.undo env s =
      if cmd.fCreatedOrderedAttr then
        (s.authorAt target cmd.fPrim
          (fun ps => ⟨removeAttrSpecNamed ps.attributes cmd.fOp.GetName⟩)).authorAt target
          cmd.fPrim (fun ps => ⟨removeAttrSpecNamed ps.attributes .xformOpOrder⟩)
      else
        match eraseOpNamed (UsdGeomXformable.GetOrderedXformOps env s cmd.fPrim).1
          cmd.fOp.GetName with
        | some ops1 =>
          UsdGeomXformable.SetXformOpOrder
            (s.authorAt target cmd.fPrim
              (fun ps => ⟨removeAttrSpecNamed ps.attributes cmd.fOp.GetName⟩))
            cmd.fPrim ops1 (UsdGeomXformable.GetOrderedXformOps env s cmd.fPrim).2
        | none =>
          s.authorAt target cmd.fPrim
            (fun ps => ⟨removeAttrSpecNamed ps.attributes cmd.fOp.GetName⟩) := by
  unfold UsdTranslateUndoableCommand.undo
  rw [ht]
  simp only [hc, if_true, hps]

/-! ### C12: a missing spec at undo time -/

/-- C12 (structural undo miss), as amended: for a command that created its operation, `undo()`
always returns. When the prim spec is absent on the captured destination, it changes nothing.
When the prim spec is there and holds no spec of the operation, the removal of the spec of the
operation is the identity and, on every layer, the spec of every attribute other than
`xformOpOrder` is left in place; the order attribute is still rolled back: when the command
created `xformOpOrder`, `undo()` is the removal of the `xformOpOrder` spec from the captured
destination; otherwise it leaves the stage as it is, or sets the order without the operation
when the operation still is among the ordered ops, and it leaves the stage as it is when the
attribute of the operation is defined on no layer. -/
theorem undo_created_miss (env : Env) (s : UsdStage) (cmd : UsdTranslateUndoableCommand)
    (hc : cmd.fCreatedOp = true) :
    (GetPrimSpecForScenePath s cmd.fEditTarget cmd.fPrim = none → cmd.undo env s = s) ∧
    (∀ (target : UsdEditTarget) (ps : SdfPrimSpec), cmd.fEditTarget = some target →
      GetPrimSpecForScenePath s (some target) cmd.fPrim = some ps →
      ps.GetAttributeSpec cmd.fOp.GetName = none →
        s.authorAt target cmd.fPrim
          (fun ps => ⟨removeAttrSpecNamed ps.attributes cmd.fOp.GetName⟩) = s ∧
        (∀ (i : Nat) (q : SdfPath) (m : TfToken), m ≠ .xformOpOrder →
          ((cmd.undo env s).layers.get? i).bind (fun l => l.GetAttributeSpec q m) =
            (s.layers.get? i).bind (fun l => l.GetAttributeSpec q m)) ∧
        (cmd.fCreatedOrderedAttr = true →
          cmd.undo env s = s.authorAt target cmd.fPrim
            (fun ps => ⟨removeAttrSpecNamed ps.attributes .xformOpOrder⟩)) ∧
        (cmd.fCreatedOrderedAttr = false →
          cmd.undo env s = s ∨
          ∃ ops1, eraseOpNamed (UsdGeomXformable.GetOrderedXformOps env s cmd.fPrim).1
              cmd.fOp.GetName = some ops1 ∧
            cmd.undo env s = UsdGeomXformable.SetXformOpOrder s cmd.fPrim ops1
              (UsdGeomXformable.GetOrderedXformOps env s cmd.fPrim).2) ∧
        (cmd.fCreatedOrderedAttr = false →
          UsdAttribute.IsValid s cmd.fPrim cmd.fOp.GetName = false → cmd.undo env s = s)) := by
  constructor
  · intro hnone
    unfold UsdTranslateUndoableCommand.undo
    simp only [hc, if_true, hnone]
    cases cmd.fEditTarget <;> rfl
  · intro target ps ht hps hop
    have hid : s.authorAt target cmd.fPrim
        (fun ps => ⟨removeAttrSpecNamed ps.attributes cmd.fOp.GetName⟩) = s := by
      apply authorAt_self s target cmd.fPrim _ ps hps
      show SdfPrimSpec.mk (removeAttrSpecNamed ps.attributes cmd.fOp.GetName) = ps
      rw [removeAttrSpecNamed_of_none _ _ hop]
    have hu := undo_created_present env s cmd target ps hc ht hps
    rw [hid] at hu
    have hrem : ∀ (i : Nat) (q : SdfPath) (m : TfToken), m ≠ .xformOpOrder →
        ((s.authorAt target cmd.fPrim
          (fun ps => ⟨removeAttrSpecNamed ps.attributes .xformOpOrder⟩)).layers.get? i).bind
            (fun l => l.GetAttributeSpec q m) =
          (s.layers.get? i).bind (fun l => l.GetAttributeSpec q m) := by
      intro i q m hm
      apply layerSpec_authorAt
      intro ps
      exact find_removeAttrSpecNamed_ne ps.attributes .xformOpOrder m hm
    refine ⟨hid, ?_, ?_, ?_, ?_⟩
    · intro i q m hm
      rw [hu]
      cases hco : cmd.fCreatedOrderedAttr with
      | true => simpa using hrem i q m hm
      | false =>
        simp only [Bool.false_eq_true, if_false]
        cases eraseOpNamed (UsdGeomXformable.GetOrderedXformOps env s cmd.fPrim).1
            cmd.fOp.GetName with
        | none => rfl
        | some ops1 => exact layerSpec_SetXformOpOrder _ _ _ _ _ _ _ hm
    · intro hco
      rw [hu, hco]
      rfl
    · intro hco
      rw [hu, hco]
      simp only [Bool.false_eq_true, if_false]
      cases he : eraseOpNamed (UsdGeomXformable.GetOrderedXformOps env s cmd.fPrim).1
          cmd.fOp.GetName with
      | none => exact Or.inl rfl
      | some ops1 => exact Or.inr ⟨ops1, rfl, rfl⟩
    · intro hco hinv
      rw [hu, hco]
      simp only [Bool.false_eq_true, if_false]
      rw [eraseOpNamed_of_absent]
      intro op hop' hname
      obtain ⟨ty, suf, inv, he, hv⟩ := GetOrderedXformOps_resolve env s cmd.fPrim op hop'
      subst he
      rw [← hname] at hinv
      simp only [UsdGeomXformOp.GetName] at hinv
      rw [hv] at hinv
      exact Bool.noConfusion hinv

/-- A missing spec at concrete inputs: with no prim spec on the captured destination `undo()`
changes nothing; with the prim spec holding only `xformOpOrder`, `undo()` of a command that
created the order attribute removes that spec and leaves the bare prim. -/
theorem undo_created_miss_witness :
    (createdCommand true).undo sceneEnv ⟨[emptyLayer], 0⟩ = ⟨[emptyLayer], 0⟩ ∧
    (createdCommand true).undo sceneEnv orphanedOrderStage =
      orphanedOrderStage.authorAt 0 "/p"
        (fun ps => ⟨removeAttrSpecNamed ps.attributes .xformOpOrder⟩) ∧
    (createdCommand false).undo sceneEnv orphanedOrderStage = orphanedOrderStage :=
  ⟨(undo_created_miss sceneEnv ⟨[emptyLayer], 0⟩ (createdCommand true) rfl).1 (by decide!),
   ((undo_created_miss sceneEnv orphanedOrderStage (createdCommand true) rfl).2 0
      ⟨[translateOrderSpec]⟩ rfl (by decide!) (by decide!)).2.2.1 rfl,
   ((undo_created_miss sceneEnv orphanedOrderStage (createdCommand false) rfl).2 0
      ⟨[translateOrderSpec]⟩ rfl (by decide!) (by decide!)).2.2.2.2 rfl (by decide!)⟩

/-- C12 as stated fails: the command is constructed on a prim without any attribute, which
authors `xformOp:translate` and `xformOpOrder`; the spec of `xformOp:translate` is then removed
by another edit, so that only the property spec of the operation is absent at undo time;
`undo()` removes no property for the operation, yet it removes the `xformOpOrder` spec: another
authored property spec of the prim is not left in place. -/
theorem undo_miss_removes_order_spec :
    (UsdTranslateUndoableCommand.create sceneEnv bareStage "/p" 0 0 0 .Default).1 =
      createdCommand true ∧
    (UsdTranslateUndoableCommand.create sceneEnv bareStage "/p" 0 0 0 .Default).2.authorAt 0 "/p"
      (fun ps => ⟨removeAttrSpecNamed ps.attributes (.xformOp .TypeTranslate "" false)⟩) =
      orphanedOrderStage ∧
    (GetPrimSpecForScenePath orphanedOrderStage (createdCommand true).fEditTarget "/p").isSome =
      true ∧
    (orphanedOrderStage.layers.get? 0).bind
      (fun l => l.GetAttributeSpec "/p" (createdCommand true).fOp.GetName) = none ∧
    (orphanedOrderStage.layers.get? 0).bind
      (fun l => l.GetAttributeSpec "/p" .xformOpOrder) = some translateOrderSpec ∧
    (((createdCommand true).undo sceneEnv orphanedOrderStage).layers.get? 0).bind
      (fun l => l.GetAttributeSpec "/p" .xformOpOrder) = none ∧
    (createdCommand true).undo sceneEnv orphanedOrderStage = bareStage := by
  refine ⟨?_, ?_, ?_, ?_, ?_, ?_, ?_⟩ <;> decide!

/-! ### C13: matrix composition -/

/-- C13 (matrix composition): over exact arithmetic, the in-place `multiply4x4(frame, child)`
leaves `frame` equal to the matrix product `child * frame_old`: entry `k` of the new row `i` is
the sum over `j` of `child[i][j] * frame_old[j][k]`, every row being computed from the original
frame; the result is that of the three-argument `multiply4x4(output, child, frame_old)`, and
multiplying by the identity child leaves `frame` unchanged. -/
theorem multiply4x4_is_matrix_product (frame child output : GfMatrix4d) :
    (multiply4x4 frame child).toMatrix = child.toMatrix * frame.toMatrix ∧
    (∀ i k : Fin 4, get k ((multiply4x4 frame child).row i) =
      ∑ j : Fin 4, get j (child.row i) * get k (frame.row j)) ∧
    multiply4x4 frame child = multiply4x4Into output child frame ∧
    multiply4x4 frame GfMatrix4d.identity = frame := by
  have hentry : ∀ i k : Fin 4, get k ((multiply4x4 frame child).row i) =
      ∑ j : Fin 4, get j (child.row i) * get k (frame.row j) := by
    intro i k
    fin_cases i <;> fin_cases k <;>
      simp [multiply4x4, transform4d, fmadd4d, mul4d, permute4d, get, GfMatrix4d.row,
        Fin.sum_univ_four] <;> ring
  refine ⟨?_, hentry, ?_, ?_⟩
  · ext i k
    rw [Matrix.mul_apply]
    exact hentry i k
  · rfl
  · obtain ⟨⟨a0, a1, a2, a3⟩, ⟨b0, b1, b2, b3⟩, ⟨c0, c1, c2, c3⟩, ⟨d0, d1, d2, d3⟩⟩ := frame
    simp [multiply4x4, transform4d, fmadd4d, mul4d, permute4d, get, GfMatrix4d.row,
      GfMatrix4d.identity]

end MayaUsd
